import Mathlib

/-!
Verification of the tangram-es label placement and occlusion engine
(src/core/src/labels/labels.cpp and src/core/src/labels/textLabel.cpp).

The development shallowly embeds the per-frame occlusion pass
(Labels::handleOcclusions), the entry comparator (Labels::labelComparator),
the repeat-group test (Labels::withinRepeatDistance), the zoom-transition
condition of Labels::updateLabelSet, and the TextLabel operations
(constructor, updateScreenTransform, obbs, addVerticesToMesh).

Screen coordinates of the occlusion pass are modelled over ℚ (the float
computations involved are ring operations and comparisons only); the line
label screen transform needs a Euclidean length, so that part is modelled
over ℝ with Real.sqrt.

Parts of the repository that are referenced but whose sources are not part
of the two files above (the isect2d broad-phase library, label.cpp base
class helpers, util/geom.cpp) are modelled from the specification; each
such definition carries a doc comment saying so.
-/

namespace Tangram

/-- Screen-space 2D vector over ℚ, standing for glm::vec2. -/
structure Vec2 where
  x : ℚ
  y : ℚ
  deriving DecidableEq

/-- Squared Euclidean distance, standing for glm::distance2. -/
def dist2 (a b : Vec2) : ℚ := (a.x - b.x) ^ 2 + (a.y - b.y) ^ 2

/-- Axis-aligned bounding box, standing for isect2d::AABB. -/
structure AABB where
  minx : ℚ
  miny : ℚ
  maxx : ℚ
  maxy : ℚ
  deriving DecidableEq

/-- Modelled from the spec: AABB.intersect is "half-open rectangle overlap"
(isect2d library, not under src/). -/
def AABB.overlapB (a b : AABB) : Bool :=
  decide (a.minx < b.maxx) && decide (b.minx < a.maxx) &&
  decide (a.miny < b.maxy) && decide (b.miny < a.maxy)

/-- An AABB is empty when it contains no point under the half-open reading. -/
def AABB.isEmptyB (a : AABB) : Bool :=
  decide (a.maxx ≤ a.minx) || decide (a.maxy ≤ a.miny)

/-- Oriented bounding box, standing for isect2d::OBB as constructed by
TextLabel::obbs: a centroid, an axis direction, and the two dimensions
passed to the constructor. -/
structure OBB where
  cx : ℚ
  cy : ℚ
  ax : ℚ
  ay : ℚ
  w : ℚ
  h : ℚ
  deriving DecidableEq

/-- Modelled from the spec: the OBB extent is the axis-aligned bounding box
of its quad (corners centroid ± (w/2)·axis ± (h/2)·perp(axis)). -/
def OBB.getExtent (o : OBB) : AABB :=
  let rx := |o.w / 2 * o.ax| + |o.h / 2 * o.ay|
  let ry := |o.w / 2 * o.ay| + |o.h / 2 * o.ax|
  ⟨o.cx - rx, o.cy - ry, o.cx + rx, o.cy + ry⟩

/-- Center of an OBB projected onto a direction. -/
def OBB.projC (o : OBB) (dx dy : ℚ) : ℚ := o.cx * dx + o.cy * dy

/-- Projection radius of an OBB onto a direction: half the width of the
interval covered by the projections of the four quad corners. -/
def OBB.projR (o : OBB) (dx dy : ℚ) : ℚ :=
  |o.w / 2 * (o.ax * dx + o.ay * dy)| + |o.h / 2 * (-o.ay * dx + o.ax * dy)|

/-- A direction separates two OBBs when their projection intervals onto it
are disjoint. -/
def sepOn (a b : OBB) (dx dy : ℚ) : Bool :=
  decide (a.projC dx dy + a.projR dx dy ≤ b.projC dx dy - b.projR dx dy) ||
  decide (b.projC dx dy + b.projR dx dy ≤ a.projC dx dy - a.projR dx dy)

/-- Modelled from the spec: OBB intersection is the separating-axis test over
the 4 unique axes, 2 per OBB (isect2d library, not under src/). -/
def OBB.intersectB (a b : OBB) : Bool :=
  !(sepOn a b a.ax a.ay || sepOn a b (-a.ay) a.ax ||
    sepOn a b b.ax b.ay || sepOn a b (-b.ay) b.ax)

/-- Modelled from the spec: the per-label lifecycle states of the label state
machine (Label::State, declared in label.h which is not under src/). -/
inductive LState where
  | none
  | fading_in
  | visible
  | sleep
  | fading_out
  | dead
  deriving DecidableEq

/-- Modelled from the spec: visibleState() holds exactly for the states
fading_in, visible, sleep and fading_out. -/
def visibleStateB : LState → Bool
  | LState.fading_in => true
  | LState.visible => true
  | LState.sleep => true
  | LState.fading_out => true
  | _ => false

/-- Modelled from the spec: one step of the label state machine
(Label::evalState, label.cpp not under src/). Fade rates are taken as one
alpha unit per second; the spec does not fix them, and no claim depends on
the rate. The multi-frame visible-to-sleep hysteresis needs cross-frame
data not available to a single step and is modelled by the spec's other
listed arc visible-to-fading_out. -/
def evalStateModel (s : LState) (alpha dt : ℚ) (occluded : Bool) : LState × ℚ :=
  match s with
  | LState.none => if occluded then (LState.none, alpha) else (LState.fading_in, alpha)
  | LState.fading_in =>
      if occluded then (LState.fading_out, alpha)
      else if 1 ≤ alpha + dt then (LState.visible, 1) else (LState.fading_in, alpha + dt)
  | LState.visible => if occluded then (LState.fading_out, alpha) else (LState.visible, alpha)
  | LState.fading_out => if alpha - dt ≤ 0 then (LState.dead, 0) else (LState.fading_out, alpha - dt)
  | LState.sleep => if occluded then (LState.sleep, alpha) else (LState.fading_in, alpha)
  | LState.dead => (LState.dead, alpha)

/-- Truncation of a rational toward zero, standing for the C++ conversions
float-to-int and float-to-int16 used by the source. -/
def qtrunc (q : ℚ) : ℤ := if q < 0 then -⌊-q⌋ else ⌊q⌋

/-- Modelled from the spec: rotation of a vector by a unit rotation vector
(rotateBy from util/geom, not under src/), as complex multiplication. The
exact formula is immaterial to every claim: it is only exercised on the
rotation (1, 0). -/
def rotateByQ (v : ℚ × ℚ) (r : Vec2) : ℚ × ℚ :=
  (v.1 * r.x - v.2 * r.y, v.1 * r.y + v.2 * r.x)

/-- One glyph-quad vertex of the prebuilt text mesh: an i16 position and a
texture coordinate (TextLabels quads, textLabels.h). -/
structure GlyphVert where
  px : ℤ
  py : ℤ
  ux : ℕ
  uy : ℕ
  deriving DecidableEq

/-- One glyph quad of the prebuilt text mesh with its atlas index. -/
structure Glyph4 where
  atlas : ℕ
  v0 : GlyphVert
  v1 : GlyphVert
  v2 : GlyphVert
  v3 : GlyphVert
  deriving DecidableEq

/-- Per-vertex state attributes pushed with every quad (TextVertex::State). -/
structure TexVtxState where
  sel : ℕ
  fill : ℕ
  stroke : ℕ
  alpha16 : ℕ
  fscale : ℕ
  deriving DecidableEq

/-- An output vertex as pushed to the dynamic quad mesh. -/
structure OutVert where
  px : ℤ
  py : ℤ
  ux : ℕ
  uy : ℕ
  deriving DecidableEq

/-- A quad pushed to the style mesh of one atlas. -/
structure OutQuad where
  atlas : ℕ
  q0 : OutVert
  q1 : OutVert
  q2 : OutVert
  q3 : OutVert
  vstate : TexVtxState
  deriving DecidableEq

/-- The i16vec2 cast of a rational pair (truncation toward zero; the claims
only exercise in-range values, so the 16-bit wrap is not modelled). -/
def i16ofQ (v : ℚ × ℚ) : ℤ × ℤ := (qtrunc v.1, qtrunc v.2)

/-- Screen position of one glyph vertex: sp plus the (optionally rotated)
quad vertex position, as computed in TextLabel::addVerticesToMesh. -/
def vertPos (sp : ℤ × ℤ) (rotate : Bool) (rot : Vec2) (g : GlyphVert) : ℤ × ℤ :=
  if rotate then
    let rp := i16ofQ (rotateByQ ((g.px : ℚ), (g.py : ℚ)) rot)
    (sp.1 + rp.1, sp.2 + rp.2)
  else (sp.1 + g.px, sp.2 + g.py)

/-- Strict in-bounds test of one vertex against the expanded screen box of
TextLabel::addVerticesToMesh. -/
def inBoundsV (mn : ℤ) (mx : ℤ × ℤ) (p : ℤ × ℤ) : Bool :=
  decide (mn < p.1) && decide (p.1 < mx.1) && decide (mn < p.2) && decide (p.2 < mx.2)

/-- Embedding of TextLabel::addVerticesToMesh (textLabel.cpp). Inputs are the
label state, alpha, font attributes, the screen transform slice (position
and rotation), the anchor offset, dim.y, the viewport size, and the glyph
quads; the result is the list of quads pushed to the style meshes, tagged
with their atlas. TextVertex::position_scale is 4. -/
def addVerticesToMeshModel (s : LState) (alpha : ℚ) (sel fill stroke fscale : ℕ)
    (tpos trot manchor : Vec2) (dimY : ℚ) (screen : Vec2) (quads : List Glyph4) :
    List OutQuad :=
  if !(visibleStateB s) then [] else
  let vstate : TexVtxState := ⟨sel, fill, stroke, (qtrunc (alpha * 65535)).toNat % 65536, fscale⟩
  let rotate := !(decide (trot.x = 1))
  let sp : ℤ × ℤ := i16ofQ ((tpos.x + manchor.x) * 4, (tpos.y + manchor.y) * 4)
  let mn : ℤ := qtrunc (-dimY * 4)
  let mx : ℤ × ℤ := (qtrunc ((screen.x + dimY) * 4), qtrunc ((screen.y + dimY) * 4))
  quads.filterMap (fun q =>
    let p0 := vertPos sp rotate trot q.v0
    let p1 := vertPos sp rotate trot q.v1
    let p2 := vertPos sp rotate trot q.v2
    let p3 := vertPos sp rotate trot q.v3
    if inBoundsV mn mx p0 || inBoundsV mn mx p1 || inBoundsV mn mx p2 || inBoundsV mn mx p3 then
      Option.some ⟨q.atlas, ⟨p0.1, p0.2, q.v0.ux, q.v0.uy⟩, ⟨p1.1, p1.2, q.v1.ux, q.v1.uy⟩,
                   ⟨p2.1, p2.2, q.v2.ux, q.v2.uy⟩, ⟨p3.1, p3.2, q.v3.ux, q.v3.uy⟩, vstate⟩
    else Option.none)

/-- A label as seen by the occlusion pass (Labels::handleOcclusions). The
per-variant virtual obbs() computation is abstracted as the pure function
obbsAt of the anchor index, exactly one list per anchor; TextLabel::obbs
(the only obbs implementation under src/) is embedded separately and
always yields a one-element list. Fields after obbList carry the data that
the finalize loop of Labels::updateLabelSet and
TextLabel::addVerticesToMesh read. -/
structure LLabel where
  parent : Option ℕ
  required : Bool
  repeatDistance : ℚ
  repeatGroup : ℕ
  screenCenter : Vec2
  anchorCount : ℕ
  anchorIndex : ℕ
  obbsAt : ℕ → List OBB
  occluded : Bool
  obbList : List OBB
  lstate : LState
  alpha : ℚ
  tpos : Vec2
  trot : Vec2
  manchor : Vec2
  dimY : ℚ
  fontSel : ℕ
  fontFill : ℕ
  fontStroke : ℕ
  fontScale : ℕ
  quads : List Glyph4

/-- A label with all fields zeroed, used to totalize index lookups. -/
def defaultLabel : LLabel :=
  ⟨Option.none, false, 0, 0, ⟨0, 0⟩, 0, 0, fun _ => [], false, [],
   LState.none, 0, ⟨0, 0⟩, ⟨0, 0⟩, ⟨0, 0⟩, 0, 0, 0, 0, 0, []⟩

/-- State of the occlusion pass: the label array (Labels::m_labels entries,
as a total function over indices), the broad-phase contents, and the
repeat groups. Modelled from the spec: the isect2d grid guarantees no
false negatives and every candidate it reports is narrow-phase filtered by
the caller, so it is modelled as the list of inserted OBBs with their
owning entry index as payload (the spec states that the findLabel binary
search recovering the owner from the payload is correct). m_repeatGroups
is modelled as the list of registered (entry, group, screen center)
triples. -/
structure OccState where
  labelAt : ℕ → LLabel
  inserted : List (ℕ × OBB)
  placedRepeats : List (ℕ × ℕ × Vec2)

/-- Replace the label at one index. -/
def setLabel (st : OccState) (i : ℕ) (l : LLabel) : OccState :=
  { st with labelAt := fun j => if j = i then l else st.labelAt j }

/-- The parent-occluded guard at the top of the entry loop of
Labels::handleOcclusions: a label with an occluded parent is occluded
without being tested. -/
def parentOccluded (st : OccState) (l : LLabel) : Bool :=
  match l.parent with
  | Option.none => false
  | Option.some p => (st.labelAt p).occluded

/-- Embedding of Labels::withinRepeatDistance: some already registered label
of the same repeat group lies strictly within repeatDistance (squared
comparison, as in the source). -/
def withinRepeatB (pr : List (ℕ × ℕ × Vec2)) (l : LLabel) : Bool :=
  pr.any (fun e => decide (e.2.1 = l.repeatGroup) &&
                   decide (dist2 l.screenCenter e.2.2 < l.repeatDistance ^ 2))

/-- The narrow-phase scan of one anchor's OBBs against the broad-phase
contents: clean when every OBB of the candidate either misses every
inserted OBB or the inserted OBB belongs to the candidate's parent. -/
def obbsClean (ins : List (ℕ × OBB)) (par : Option ℕ) (obbs : List OBB) : Bool :=
  obbs.all (fun o => ins.all (fun e => !(OBB.intersectB o e.2) || decide (par = Option.some e.1)))

/-- The anchor fallback search of the do-while loop of
Labels::handleOcclusions: anchors are tried starting from the current
anchorIndex, advancing and wrapping (Label::nextAnchor, modelled from the
spec: "nextAnchor() advances and wraps"), until a clean placement is found
or the first anchor is reached again. -/
def findAnchorAux (l : LLabel) (ins : List (ℕ × OBB)) : ℕ → ℕ → Option ℕ
  | 0, _ => Option.none
  | fuel + 1, k =>
      let a := (l.anchorIndex + k) % l.anchorCount
      if obbsClean ins l.parent (l.obbsAt a) then Option.some a
      else findAnchorAux l ins fuel (k + 1)

/-- Search over all anchors of a label, starting at its current anchor. -/
def findAnchorPlacement (l : LLabel) (ins : List (ℕ × OBB)) : Option ℕ :=
  findAnchorAux l ins l.anchorCount 0

/-- The required-child propagation after the anchor loop: an occluded label
with a parent and required set occludes its parent. -/
def propagateRequired (st : OccState) (l : LLabel) : OccState :=
  match l.parent with
  | Option.some p =>
      if l.required then setLabel st p { st.labelAt p with occluded := true } else st
  | Option.none => st

/-- Outcome of an entry that stays occluded: in the source the do-while loop
breaks back at the first anchor with the OBBs recomputed there, and the
propagation step runs. -/
def occludedOutcome (st : OccState) (i : ℕ) (l : LLabel) : OccState :=
  propagateRequired
    (setLabel st i { l with occluded := true, obbList := l.obbsAt l.anchorIndex }) l

/-- Outcome of an entry placed at anchor a: the label is left unoccluded at
that anchor, its OBBs are inserted into the broad phase (modelled from the
spec: insertion of an OBB with an empty extent is skipped), and a label
with positive repeatDistance is registered in its repeat group. -/
def placedOutcome (st : OccState) (i : ℕ) (l : LLabel) (a : ℕ) : OccState :=
  { setLabel st i { l with occluded := false, anchorIndex := a, obbList := l.obbsAt a } with
    inserted :=
      st.inserted ++ ((l.obbsAt a).filter (fun o => !(OBB.getExtent o).isEmptyB)).map (fun o => (i, o)),
    placedRepeats :=
      if 0 < l.repeatDistance then st.placedRepeats ++ [(i, l.repeatGroup, l.screenCenter)]
      else st.placedRepeats }

/-- Embedding of one iteration of the entry loop of Labels::handleOcclusions.
The entering occlusion flag is read as in the source (a label occluded by
the repeat test, or already occluded when the anchor loop is entered,
breaks out of the loop at the first anchor and stays occluded). -/
def processEntry (st : OccState) (i : ℕ) : OccState :=
  if parentOccluded st (st.labelAt i) then
    setLabel st i { st.labelAt i with occluded := true }
  else if (st.labelAt i).occluded ||
      (decide (0 < (st.labelAt i).repeatDistance) && withinRepeatB st.placedRepeats (st.labelAt i)) then
    occludedOutcome st i (st.labelAt i)
  else
    match findAnchorPlacement (st.labelAt i) st.inserted with
    | Option.some a => placedOutcome st i (st.labelAt i) a
    | Option.none => occludedOutcome st i (st.labelAt i)

/-- Modelled from the spec: labels enter the occlusion pass with the
occlusion flag cleared (Label::update resets it each frame; label.cpp is
not under src/) and with no OBBs recorded yet. -/
def initLabel (l : LLabel) : LLabel := { l with occluded := false, obbList := [] }

/-- Initial state of the occlusion pass: cleared broad phase and repeat
groups (m_isect2d.clear(), m_repeatGroups.clear()). -/
def initState (ls : List LLabel) : OccState :=
  ⟨fun i => initLabel (ls.getD i defaultLabel), [], []⟩

/-- Process a list of entry indices in order. -/
def runList (st : OccState) : List ℕ → OccState
  | [] => st
  | i :: rest => runList (processEntry st i) rest

/-- State of the occlusion pass after processing the first k entries. -/
def runPassUpTo (ls : List LLabel) (k : ℕ) : OccState :=
  runList (initState ls) (List.range k)

/-- Embedding of Labels::handleOcclusions over a sorted entry list. -/
def runPass (ls : List LLabel) : OccState := runPassUpTo ls ls.length

/-- Result of the finalize loop of Labels::updateLabelSet for one entry. -/
structure FinalizeResult where
  lstate : LState
  alpha : ℚ
  emitted : List OutQuad

/-- The viewport screen bounds used by the finalize loop. -/
def screenAABBof (screen : Vec2) : AABB := ⟨0, 0, screen.x, screen.y⟩

/-- Embedding of the finalize loop body of Labels::updateLabelSet for one
entry: evalState runs first, then a label in a visible state whose OBB
extent intersects the screen bounds has its vertices appended. -/
def finalizeEntry (screen : Vec2) (dt : ℚ) (l : LLabel) : FinalizeResult :=
  let es := evalStateModel l.lstate l.alpha dt l.occluded
  if visibleStateB es.1 &&
     l.obbList.any (fun o => AABB.overlapB (OBB.getExtent o) (screenAABBof screen)) then
    ⟨es.1, es.2, addVerticesToMeshModel es.1 es.2 l.fontSel l.fontFill l.fontStroke l.fontScale
       l.tpos l.trot l.manchor l.dimY screen l.quads⟩
  else ⟨es.1, es.2, []⟩

/-- Label type discriminant of the comparator (Label::Type). -/
inductive CLType where
  | point
  | line
  | curved
  | debugL
  deriving DecidableEq

/-- The label data read by Labels::labelComparator. The pointer identity of
the last-resort comparison is modelled as a numeric label id. -/
structure CLabel where
  occludedLastFrame : Bool
  visibleState : Bool
  ltype : CLType
  worldLineLength2 : ℚ
  hash : ℕ
  candidatePriority : ℚ
  ptr : ℕ
  deriving DecidableEq

/-- A label entry as compared by Labels::labelComparator: proxy flag,
priority, the zoom of its tile when it has one, and the label. -/
structure CEntry where
  proxy : Bool
  priority : ℚ
  tileZ : Option ℤ
  label : CLabel
  deriving DecidableEq

/-- Embedding of Labels::labelComparator (labels.cpp lines 236-284), rule by
rule in source order. -/
def labelComparatorB (a b : CEntry) : Bool :=
  if a.proxy ≠ b.proxy then b.proxy
  else if a.priority ≠ b.priority then decide (a.priority < b.priority)
  else
    match a.tileZ, b.tileZ with
    | Option.none, _ => false
    | Option.some _, Option.none => true
    | Option.some za, Option.some zb =>
      if za ≠ zb then decide (zb < za)
      else
        let l1 := a.label
        let l2 := b.label
        if l1.occludedLastFrame ≠ l2.occludedLastFrame then l2.occludedLastFrame
        else if l1.visibleState ≠ l2.visibleState then l1.visibleState
        else if l1.ltype = CLType.line ∧ l2.ltype = CLType.line then
          decide (l2.worldLineLength2 < l1.worldLineLength2)
        else if l1.hash ≠ l2.hash then decide (l1.hash < l2.hash)
        else if l1.ltype = CLType.curved ∧ l2.ltype = CLType.curved then
          decide (l2.candidatePriority < l1.candidatePriority)
        else decide (l1.ptr < l2.ptr)

/-- Embedding of the zoom-transition condition of Labels::updateLabelSet
(labels.cpp lines 417-420): skipTransitions runs, and m_lastZoom is
updated, exactly when the int casts of the stored zoom and the current
zoom differ. Returns the decision and the new m_lastZoom. -/
def zoomSkipStep (lastZoom zoom : ℚ) : Bool × ℚ :=
  if qtrunc lastZoom ≠ qtrunc zoom then (true, zoom) else (false, lastZoom)

/-- The label option fields carried by Label::Options that the embedded code
reads. -/
structure LabelOptionsM where
  priority : ℚ
  offset : Vec2
  buffer : Vec2
  repeatGroup : ℕ
  repeatDistance : ℚ
  required : Bool
  interactive : Bool
  selectionColor : ℕ
  deriving DecidableEq

/-- Embedding of the option rewrite done by the TextLabel constructor
(textLabel.cpp line 49): m_options.repeatDistance = 0. -/
def textLabelCtorOptions (o : LabelOptionsM) : LabelOptionsM := { o with repeatDistance := 0 }

/-- Modelled from the spec: the activation-distance hysteresis constant
Label::activation_distance_threshold (label.h, not under src/). The value
is taken as 2; no claim depends on the exact value. -/
def activation_distance_threshold : ℚ := 2

/-- Embedding of TextLabel::obbs (textLabel.cpp lines 146-172): the single
OBB it computes from the dimension, the buffer, the occluded-last-frame
flag, the state, the transform slice and the anchor offset. -/
def textLabelObbsModel (dim buf : Vec2) (occludedLastFrame : Bool) (s : LState)
    (tpos trot manchor : Vec2) : OBB :=
  let d0 : Vec2 := ⟨dim.x - buf.x, dim.y - buf.y⟩
  let d1 : Vec2 :=
    if occludedLastFrame then
      ⟨d0.x + activation_distance_threshold, d0.y + activation_distance_threshold⟩
    else d0
  let d2 : Vec2 := if s = LState.dead then ⟨d1.x - 4, d1.y - 4⟩ else d1
  ⟨tpos.x + manchor.x, tpos.y + manchor.y, trot.x, -trot.y, d2.x, d2.y⟩

/-- Embedding of the appended OBB range of TextLabel::obbs: exactly one OBB
is emitted (the range length is set to 1). -/
def textLabelObbsList (dim buf : Vec2) (occludedLastFrame : Bool) (s : LState)
    (tpos trot manchor : Vec2) : List OBB :=
  [textLabelObbsModel dim buf occludedLastFrame s tpos trot manchor]

/-- The fields of two occlusion-pass labels that the pass never mutates
agree. The pass only writes occluded, anchorIndex and obbList. -/
def coreEq (x y : LLabel) : Prop :=
  x.parent = y.parent ∧ x.required = y.required ∧ x.repeatDistance = y.repeatDistance ∧
  x.repeatGroup = y.repeatGroup ∧ x.screenCenter = y.screenCenter ∧
  x.anchorCount = y.anchorCount ∧ x.obbsAt = y.obbsAt ∧ x.lstate = y.lstate

/-- Euclidean length of a screen vector, standing for glm::length. -/
noncomputable def rlen (v : ℝ × ℝ) : ℝ := Real.sqrt (v.1 ^ 2 + v.2 ^ 2)

/-- Text label type discriminant for the screen transform. -/
inductive TType where
  | point
  | line
  | curved
  | debugT
  deriving DecidableEq

/-- The TextLabel fields read by updateScreenTransform: the type, the world
transform endpoints, the dimension and the offset option. -/
structure TLabel where
  ltype : TType
  w0 : ℝ × ℝ
  w1 : ℝ × ℝ
  dim : ℝ × ℝ
  offset : ℝ × ℝ

/-- The screen transform slice written by TextLabel::updateScreenTransform:
the position, the rotation, and the screen center side effect. -/
structure PTrans where
  pos : ℝ × ℝ
  rot : ℝ × ℝ
  center : ℝ × ℝ

/-- Modelled from the spec: rotateBy over ℝ (util/geom, not under src/), as
complex multiplication; no claim depends on the exact formula. -/
noncomputable def rotateByR (v r : ℝ × ℝ) : ℝ × ℝ :=
  (v.1 * r.1 - v.2 * r.2, v.1 * r.2 + v.2 * r.1)

/-- Embedding of TextLabel::updateScreenTransform (textLabel.cpp lines
73-138). The projection worldToScreenSpace (util/geom.cpp, not under src/)
is abstracted as the parameter proj returning the screen position and the
clipped flag; the source only ever sets the shared clipped flag to true,
so the flag after two projections is their disjunction, and the clipped
result of the midpoint projection is ignored as in the source. Returns
none where the source returns false. -/
noncomputable def updateScreenTransformModel (proj : ℝ × ℝ → (ℝ × ℝ) × Bool)
    (l : TLabel) : Option PTrans :=
  match l.ltype with
  | TType.point =>
      let r := proj l.w0
      if r.2 then Option.none
      else Option.some ⟨(r.1.1 + l.offset.1, r.1.2 + l.offset.2), (1, 0), r.1⟩
  | TType.debugT =>
      let r := proj l.w0
      if r.2 then Option.none
      else Option.some ⟨(r.1.1 + l.offset.1, r.1.2 + l.offset.2), (1, 0), r.1⟩
  | TType.line =>
      let a0 := proj l.w0
      let a2 := proj l.w1
      if a0.2 || a2.2 then Option.none
      else
        let len := rlen (a2.1.1 - a0.1.1, a2.1.2 - a0.1.2)
        if len < 7 / 10 * l.dim.1 then Option.none
        else
          let mid : ℝ × ℝ := ((l.w1.1 + l.w0.1) / 2, (l.w1.2 + l.w0.2) / 2)
          let sp := (proj mid).1
          let r0 : ℝ × ℝ :=
            if a0.1.1 ≤ a2.1.1 then ((a2.1.1 - a0.1.1) / len, (a2.1.2 - a0.1.2) / len)
            else ((a0.1.1 - a2.1.1) / len, (a0.1.2 - a2.1.2) / len)
          let rot : ℝ × ℝ := (r0.1, -r0.2)
          Option.some ⟨(sp.1 + (rotateByR l.offset rot).1, sp.2 + (rotateByR l.offset rot).2),
                       rot, sp⟩
  | TType.curved => Option.none

/-- Spec-side definition for the rotation of a line label, following the
spec's words: "the unit vector from the left endpoint to the right
endpoint of the projected segment, oriented so that its x component is
non-negative". -/
noncomputable def specLeftToRightUnit (s0 s1 : ℝ × ℝ) : ℝ × ℝ :=
  let d : ℝ × ℝ := (s1.1 - s0.1, s1.2 - s0.2)
  let len := rlen d
  if s0.1 ≤ s1.1 then (d.1 / len, d.2 / len) else (-d.1 / len, -d.2 / len)

/-- Axis-aligned OBB of a point label at a given center and size. -/
def obbAtP (c : Vec2) (w h : ℚ) : OBB := ⟨c.x, c.y, 1, 0, w, h⟩

/-- Witness label for the no-overlap invariant: a single-anchor point label
with a small OBB around the origin. -/
def wlA : LLabel :=
  { defaultLabel with
    anchorCount := 1
    screenCenter := ⟨0, 0⟩
    obbsAt := fun _ => [obbAtP ⟨0, 0⟩ 10 10] }

/-- Witness label for the no-overlap invariant: a disjoint second label. -/
def wlB : LLabel :=
  { defaultLabel with
    anchorCount := 1
    screenCenter := ⟨100, 100⟩
    obbsAt := fun _ => [obbAtP ⟨100, 100⟩ 10 10] }

/-- Witness entry list for the no-overlap invariant. -/
def wls : List LLabel := [wlA, wlB]

/-- Repeat-group witness: three labels of group 7 with repeatDistance 120 at
x = 100, 200, 350 (the spec's seed test 2). -/
def rl1 : LLabel :=
  { defaultLabel with
    anchorCount := 1
    repeatGroup := 7
    repeatDistance := 120
    screenCenter := ⟨100, 300⟩
    obbsAt := fun _ => [obbAtP ⟨100, 300⟩ 2 2] }

/-- Second repeat-group witness label, 100 px from the first. -/
def rl2 : LLabel :=
  { defaultLabel with
    anchorCount := 1
    repeatGroup := 7
    repeatDistance := 120
    screenCenter := ⟨200, 300⟩
    obbsAt := fun _ => [obbAtP ⟨200, 300⟩ 2 2] }

/-- Third repeat-group witness label, 250 px from the first. -/
def rl3 : LLabel :=
  { defaultLabel with
    anchorCount := 1
    repeatGroup := 7
    repeatDistance := 120
    screenCenter := ⟨350, 300⟩
    obbsAt := fun _ => [obbAtP ⟨350, 300⟩ 2 2] }

/-- Repeat-group witness entry list. -/
def rls : List LLabel := [rl1, rl2, rl3]

/-- One glyph quad used by the emission scenarios. -/
def glyphQ : Glyph4 := ⟨0, ⟨10, 10, 0, 0⟩, ⟨20, 10, 1, 0⟩, ⟨20, 20, 1, 1⟩, ⟨10, 20, 0, 1⟩⟩

/-- Required-propagation scenario, label Q: an unrelated higher-priority
label placed first. -/
def cexQ : LLabel :=
  { defaultLabel with
    anchorCount := 1
    screenCenter := ⟨50, 50⟩
    obbsAt := fun _ => [obbAtP ⟨50, 50⟩ 20 20]
    lstate := LState.visible
    alpha := 1 }

/-- Required-propagation scenario, parent label P: placed away from Q, in
state visible, with one glyph quad to emit. -/
def cexP : LLabel :=
  { defaultLabel with
    anchorCount := 1
    screenCenter := ⟨300, 100⟩
    obbsAt := fun _ => [obbAtP ⟨300, 100⟩ 10 10]
    lstate := LState.visible
    alpha := 1
    tpos := ⟨300, 100⟩
    trot := ⟨1, 0⟩
    manchor := ⟨0, 0⟩
    dimY := 6
    quads := [glyphQ] }

/-- Required-propagation scenario, child label C: required, parented to P
(entry 1), overlapping Q. -/
def cexC : LLabel :=
  { defaultLabel with
    anchorCount := 1
    parent := Option.some 1
    required := true
    screenCenter := ⟨50, 50⟩
    obbsAt := fun _ => [obbAtP ⟨50, 50⟩ 20 20]
    lstate := LState.none }

/-- Required-propagation scenario entry list, in sorted order Q, P, C. -/
def cexLs : List LLabel := [cexQ, cexP, cexC]

/-- Viewport of the emission scenarios. -/
def cexScreen : Vec2 := ⟨800, 600⟩

/-- Witness list for the constructor claim: one text label with
repeatDistance 0. -/
def wRd0 : List LLabel :=
  [{ defaultLabel with
      anchorCount := 1
      obbsAt := fun _ => [obbAtP ⟨5, 5⟩ 4 4] }]

/-- Comparator entry L1: a line label of squared length 25 and hash 1. -/
def cmpL1 : CEntry := ⟨false, 0, Option.some 10, ⟨false, false, CLType.line, 25, 1, 0, 1⟩⟩

/-- Comparator entry P: a point label with hash 2. -/
def cmpP : CEntry := ⟨false, 0, Option.some 10, ⟨false, false, CLType.point, 0, 2, 0, 2⟩⟩

/-- Comparator entry L2: a line label of squared length 25 and hash 3. -/
def cmpL2 : CEntry := ⟨false, 0, Option.some 10, ⟨false, false, CLType.line, 25, 3, 0, 3⟩⟩

/-- Identity projection used by the line-label witnesses: nothing clipped. -/
def projId : ℝ × ℝ → (ℝ × ℝ) × Bool := fun p => (p, false)

/-- Line label with a projected length of 50 px and dim.x = 100 (the spec's
seed test 6). -/
noncomputable def tl50 : TLabel := ⟨TType.line, (0, 0), (50, 0), (100, 20), (0, 0)⟩

/-- Line label along the 3-4-5 triangle used to evaluate the stored
rotation. -/
noncomputable def tl34 : TLabel := ⟨TType.line, (0, 0), (3, 4), (1, 1), (0, 0)⟩

/-- The transform computed for tl34 under the identity projection. -/
noncomputable def tRes34 : PTrans := ⟨(3 / 2, 2), (3 / 5, -(4 / 5)), (3 / 2, 2)⟩

/-! Structural lemmas about the occlusion pass. -/

theorem setLabel_labelAt (st : OccState) (i j : ℕ) (l : LLabel) :
    (setLabel st i l).labelAt j = if j = i then l else st.labelAt j := rfl

theorem runList_append (st : OccState) (xs ys : List ℕ) :
    runList st (xs ++ ys) = runList (runList st xs) ys := by
  induction xs generalizing st with
  | nil => rfl
  | cons i rest ih => simpa [runList] using ih (processEntry st i)

theorem runPassUpTo_succ (ls : List LLabel) (k : ℕ) :
    runPassUpTo ls (k + 1) = processEntry (runPassUpTo ls k) k := by
  unfold runPassUpTo
  rw [List.range_succ, runList_append]
  rfl

theorem coreEq_refl (x : LLabel) : coreEq x x := ⟨rfl, rfl, rfl, rfl, rfl, rfl, rfl, rfl⟩

theorem coreEq_trans {x y z : LLabel} (h1 : coreEq x y) (h2 : coreEq y z) : coreEq x z := by
  obtain ⟨a1, b1, c1, d1, e1, f1, g1, i1⟩ := h1
  obtain ⟨a2, b2, c2, d2, e2, f2, g2, i2⟩ := h2
  exact ⟨a1.trans a2, b1.trans b2, c1.trans c2, d1.trans d2, e1.trans e2,
         f1.trans f2, g1.trans g2, i1.trans i2⟩

theorem setLabel_coreEq (st : OccState) (m j : ℕ) (l : LLabel)
    (hc : coreEq l (st.labelAt m)) :
    coreEq ((setLabel st m l).labelAt j) (st.labelAt j) := by
  rw [setLabel_labelAt]
  split_ifs with hj
  · subst hj; exact hc
  · exact coreEq_refl _

theorem propagateRequired_coreEq (st : OccState) (l : LLabel) (j : ℕ) :
    coreEq ((propagateRequired st l).labelAt j) (st.labelAt j) := by
  unfold propagateRequired
  cases l.parent with
  | none => exact coreEq_refl _
  | some p =>
    split_ifs with hr
    · exact setLabel_coreEq st p j _ ⟨rfl, rfl, rfl, rfl, rfl, rfl, rfl, rfl⟩
    · exact coreEq_refl _

theorem occludedOutcome_coreEq (st : OccState) (i j : ℕ) (l : LLabel)
    (hc : coreEq l (st.labelAt i)) :
    coreEq ((occludedOutcome st i l).labelAt j) (st.labelAt j) := by
  unfold occludedOutcome
  exact coreEq_trans (propagateRequired_coreEq _ _ _)
    (setLabel_coreEq st i j _ (coreEq_trans ⟨rfl, rfl, rfl, rfl, rfl, rfl, rfl, rfl⟩ hc))

theorem placedOutcome_labelAt (st : OccState) (i j : ℕ) (l : LLabel) (a : ℕ) :
    (placedOutcome st i l a).labelAt j =
      if j = i then { l with occluded := false, anchorIndex := a, obbList := l.obbsAt a }
      else st.labelAt j := rfl

theorem processEntry_coreEq (st : OccState) (i j : ℕ) :
    coreEq ((processEntry st i).labelAt j) (st.labelAt j) := by
  unfold processEntry
  split_ifs with h1 h2
  · exact setLabel_coreEq st i j _ ⟨rfl, rfl, rfl, rfl, rfl, rfl, rfl, rfl⟩
  · exact occludedOutcome_coreEq st i j _ (coreEq_refl _)
  · cases hfa : findAnchorPlacement (st.labelAt i) st.inserted with
    | none => exact occludedOutcome_coreEq st i j _ (coreEq_refl _)
    | some a =>
      rw [placedOutcome_labelAt]
      split_ifs with hj
      · subst hj; exact ⟨rfl, rfl, rfl, rfl, rfl, rfl, rfl, rfl⟩
      · exact coreEq_refl _

theorem runPassUpTo_coreEq (ls : List LLabel) (k j : ℕ) :
    coreEq ((runPassUpTo ls k).labelAt j) (initLabel (ls.getD j defaultLabel)) := by
  induction k with
  | zero => exact coreEq_refl _
  | succ k ih =>
    rw [runPassUpTo_succ]
    exact coreEq_trans (processEntry_coreEq _ _ _) ih

theorem setLabel_occl (st : OccState) (m j : ℕ) (l : LLabel)
    (h : (st.labelAt j).occluded = true) (hl : l.occluded = true) :
    ((setLabel st m l).labelAt j).occluded = true := by
  rw [setLabel_labelAt]
  split_ifs with hj
  · exact hl
  · exact h

theorem propagateRequired_occl_persist (st : OccState) (l : LLabel) (j : ℕ)
    (h : (st.labelAt j).occluded = true) :
    ((propagateRequired st l).labelAt j).occluded = true := by
  unfold propagateRequired
  cases l.parent with
  | none => exact h
  | some p =>
    split_ifs with hr
    · exact setLabel_occl st p j _ h rfl
    · exact h

theorem occludedOutcome_occl_persist (st : OccState) (i j : ℕ) (l : LLabel)
    (h : (st.labelAt j).occluded = true) :
    ((occludedOutcome st i l).labelAt j).occluded = true := by
  unfold occludedOutcome
  exact propagateRequired_occl_persist _ _ _ (setLabel_occl st i j _ h rfl)

theorem processEntry_occl_persist (st : OccState) (i j : ℕ)
    (h : (st.labelAt j).occluded = true) :
    ((processEntry st i).labelAt j).occluded = true := by
  unfold processEntry
  split_ifs with h1 h2
  · exact setLabel_occl st i j _ h rfl
  · exact occludedOutcome_occl_persist st i j _ h
  · cases hfa : findAnchorPlacement (st.labelAt i) st.inserted with
    | none => exact occludedOutcome_occl_persist st i j _ h
    | some a =>
      rw [placedOutcome_labelAt]
      split_ifs with hj
      · exfalso
        subst hj
        exact h2 (by simp [h])
      · exact h

theorem runPassUpTo_occl_persist (ls : List LLabel) {k k' : ℕ} (hk : k ≤ k') (j : ℕ)
    (h : ((runPassUpTo ls k).labelAt j).occluded = true) :
    ((runPassUpTo ls k').labelAt j).occluded = true := by
  induction k' with
  | zero =>
    have : k = 0 := Nat.le_zero.mp hk
    subst this; exact h
  | succ m ih =>
    rcases Nat.lt_or_ge k (m + 1) with hlt | hge
    · rw [runPassUpTo_succ]
      exact processEntry_occl_persist _ _ _ (ih (Nat.lt_succ_iff.mp hlt))
    · have : k = m + 1 := le_antisymm hk hge
      subst this; exact h

theorem occludedOutcome_inserted (st : OccState) (i : ℕ) (l : LLabel) :
    (occludedOutcome st i l).inserted = st.inserted := by
  unfold occludedOutcome propagateRequired
  cases l.parent with
  | none => rfl
  | some p => split_ifs <;> rfl

theorem occludedOutcome_repeats (st : OccState) (i : ℕ) (l : LLabel) :
    (occludedOutcome st i l).placedRepeats = st.placedRepeats := by
  unfold occludedOutcome propagateRequired
  cases l.parent with
  | none => rfl
  | some p => split_ifs <;> rfl

theorem placedOutcome_inserted (st : OccState) (i : ℕ) (l : LLabel) (a : ℕ) :
    (placedOutcome st i l a).inserted =
      st.inserted ++ ((l.obbsAt a).filter (fun o => !(OBB.getExtent o).isEmptyB)).map (fun o => (i, o)) := rfl

theorem placedOutcome_repeats (st : OccState) (i : ℕ) (l : LLabel) (a : ℕ) :
    (placedOutcome st i l a).placedRepeats =
      if 0 < l.repeatDistance then st.placedRepeats ++ [(i, l.repeatGroup, l.screenCenter)]
      else st.placedRepeats := rfl

theorem processEntry_inserted_mono (st : OccState) (i : ℕ) (e : ℕ × OBB)
    (h : e ∈ st.inserted) : e ∈ (processEntry st i).inserted := by
  unfold processEntry
  split_ifs with h1 h2
  · exact h
  · rw [occludedOutcome_inserted]; exact h
  · cases hfa : findAnchorPlacement (st.labelAt i) st.inserted with
    | none => rw [occludedOutcome_inserted]; exact h
    | some a =>
      rw [placedOutcome_inserted]
      exact List.mem_append_left _ h

theorem processEntry_repeats_mono (st : OccState) (i : ℕ) (e : ℕ × ℕ × Vec2)
    (h : e ∈ st.placedRepeats) : e ∈ (processEntry st i).placedRepeats := by
  unfold processEntry
  split_ifs with h1 h2
  · exact h
  · rw [occludedOutcome_repeats]; exact h
  · cases hfa : findAnchorPlacement (st.labelAt i) st.inserted with
    | none => rw [occludedOutcome_repeats]; exact h
    | some a =>
      rw [placedOutcome_repeats]
      split_ifs with hrd
      · exact List.mem_append_left _ h
      · exact h

theorem runPassUpTo_inserted_mono (ls : List LLabel) {k k' : ℕ} (hk : k ≤ k') (e : ℕ × OBB)
    (h : e ∈ (runPassUpTo ls k).inserted) : e ∈ (runPassUpTo ls k').inserted := by
  induction k' with
  | zero =>
    have : k = 0 := Nat.le_zero.mp hk
    subst this; exact h
  | succ m ih =>
    rcases Nat.lt_or_ge k (m + 1) with hlt | hge
    · rw [runPassUpTo_succ]
      exact processEntry_inserted_mono _ _ _ (ih (Nat.lt_succ_iff.mp hlt))
    · have : k = m + 1 := le_antisymm hk hge
      subst this; exact h

theorem runPassUpTo_repeats_mono (ls : List LLabel) {k k' : ℕ} (hk : k ≤ k') (e : ℕ × ℕ × Vec2)
    (h : e ∈ (runPassUpTo ls k).placedRepeats) : e ∈ (runPassUpTo ls k').placedRepeats := by
  induction k' with
  | zero =>
    have : k = 0 := Nat.le_zero.mp hk
    subst this; exact h
  | succ m ih =>
    rcases Nat.lt_or_ge k (m + 1) with hlt | hge
    · rw [runPassUpTo_succ]
      exact processEntry_repeats_mono _ _ _ (ih (Nat.lt_succ_iff.mp hlt))
    · have : k = m + 1 := le_antisymm hk hge
      subst this; exact h

theorem propagateRequired_labelAt_ne (st : OccState) (l : LLabel) (j : ℕ) :
    ((propagateRequired st l).labelAt j).obbList = (st.labelAt j).obbList ∧
    ((propagateRequired st l).labelAt j).anchorIndex = (st.labelAt j).anchorIndex ∧
    (((propagateRequired st l).labelAt j).occluded = (st.labelAt j).occluded ∨
      ((propagateRequired st l).labelAt j).occluded = true) := by
  unfold propagateRequired
  cases l.parent with
  | none => exact ⟨rfl, rfl, Or.inl rfl⟩
  | some p =>
    split_ifs with hr
    · rw [setLabel_labelAt]
      split_ifs with hj
      · subst hj; exact ⟨rfl, rfl, Or.inr rfl⟩
      · exact ⟨rfl, rfl, Or.inl rfl⟩
    · exact ⟨rfl, rfl, Or.inl rfl⟩

theorem occludedOutcome_labelAt_ne (st : OccState) (i j : ℕ) (l : LLabel) (hne : j ≠ i) :
    ((occludedOutcome st i l).labelAt j).obbList = (st.labelAt j).obbList ∧
    ((occludedOutcome st i l).labelAt j).anchorIndex = (st.labelAt j).anchorIndex ∧
    (((occludedOutcome st i l).labelAt j).occluded = (st.labelAt j).occluded ∨
      ((occludedOutcome st i l).labelAt j).occluded = true) := by
  unfold occludedOutcome
  have h3 := propagateRequired_labelAt_ne
    (setLabel st i { l with occluded := true, obbList := l.obbsAt l.anchorIndex }) l j
  rw [setLabel_labelAt, if_neg hne] at h3
  exact h3

theorem processEntry_labelAt_ne (st : OccState) (i j : ℕ) (hne : j ≠ i) :
    ((processEntry st i).labelAt j).obbList = (st.labelAt j).obbList ∧
    ((processEntry st i).labelAt j).anchorIndex = (st.labelAt j).anchorIndex ∧
    (((processEntry st i).labelAt j).occluded = (st.labelAt j).occluded ∨
      ((processEntry st i).labelAt j).occluded = true) := by
  unfold processEntry
  split_ifs with h1 h2
  · rw [setLabel_labelAt, if_neg hne]
    exact ⟨rfl, rfl, Or.inl rfl⟩
  · exact occludedOutcome_labelAt_ne st i j _ hne
  · cases hfa : findAnchorPlacement (st.labelAt i) st.inserted with
    | none => exact occludedOutcome_labelAt_ne st i j _ hne
    | some a =>
      rw [placedOutcome_labelAt, if_neg hne]
      exact ⟨rfl, rfl, Or.inl rfl⟩

theorem occludedOutcome_self (st : OccState) (i : ℕ) (l : LLabel) :
    ((occludedOutcome st i l).labelAt i).occluded = true ∧
    ((occludedOutcome st i l).labelAt i).obbList = l.obbsAt l.anchorIndex ∧
    ((occludedOutcome st i l).labelAt i).anchorIndex = l.anchorIndex := by
  unfold occludedOutcome propagateRequired
  cases hp : l.parent with
  | none =>
    rw [setLabel_labelAt]
    simp
  | some p =>
    split_ifs with hr
    · rw [setLabel_labelAt]
      split_ifs with hip
      · subst hip
        rw [setLabel_labelAt]
        simp
      · rw [setLabel_labelAt]
        simp
    · rw [setLabel_labelAt]
      simp

theorem occludedOutcome_parent_occl (st : OccState) (i : ℕ) (l : LLabel) (p : ℕ)
    (hp : l.parent = Option.some p) (hr : l.required = true) :
    ((occludedOutcome st i l).labelAt p).occluded = true := by
  unfold occludedOutcome
  simp only [propagateRequired, hp, hr, eq_self_iff_true, if_true]
  rw [setLabel_labelAt]
  simp

theorem obbsClean_spec {ins : List (ℕ × OBB)} {par : Option ℕ} {obbs : List OBB}
    (h : obbsClean ins par obbs = true) :
    ∀ o ∈ obbs, ∀ e ∈ ins, OBB.intersectB o e.2 = false ∨ par = Option.some e.1 := by
  intro o ho e he
  unfold obbsClean at h
  rw [List.all_eq_true] at h
  have h2 := h o ho
  rw [List.all_eq_true] at h2
  have h3 := h2 e he
  simpa using h3

theorem withinRepeatB_false_spec {pr : List (ℕ × ℕ × Vec2)} {l : LLabel}
    (h : withinRepeatB pr l = false) :
    ∀ e ∈ pr, e.2.1 = l.repeatGroup → ¬(dist2 l.screenCenter e.2.2 < l.repeatDistance ^ 2) := by
  intro e he hg hlt
  have ht : withinRepeatB pr l = true := by
    unfold withinRepeatB
    rw [List.any_eq_true]
    exact ⟨e, he, by simp [hg, hlt]⟩
  rw [h] at ht
  exact absurd ht (by decide)

theorem findAnchorAux_spec (l : LLabel) (ins : List (ℕ × OBB)) :
    ∀ fuel k a, findAnchorAux l ins fuel k = Option.some a →
      obbsClean ins l.parent (l.obbsAt a) = true ∧ (0 < l.anchorCount → a < l.anchorCount) := by
  intro fuel
  induction fuel with
  | zero => intro k a h; exact Option.noConfusion h
  | succ fuel ih =>
    intro k a h
    simp only [findAnchorAux] at h
    split_ifs at h with hc
    · have ha := Option.some.inj h
      subst ha
      exact ⟨hc, fun hpos => Nat.mod_lt _ hpos⟩
    · exact ih (k + 1) a h

theorem findAnchorPlacement_spec {l : LLabel} {ins : List (ℕ × OBB)} {a : ℕ}
    (h : findAnchorPlacement l ins = Option.some a) :
    obbsClean ins l.parent (l.obbsAt a) = true ∧ a < l.anchorCount := by
  unfold findAnchorPlacement at h
  have hs := findAnchorAux_spec l ins l.anchorCount 0 a h
  rcases Nat.eq_zero_or_pos l.anchorCount with hz | hpos
  · rw [hz] at h
    exact Option.noConfusion h
  · exact ⟨hs.1, hs.2 hpos⟩

theorem intersectB_comm (a b : OBB) : OBB.intersectB a b = OBB.intersectB b a := by
  have hsep : ∀ dx dy, sepOn a b dx dy = sepOn b a dx dy := by
    intro dx dy
    unfold sepOn
    exact Bool.or_comm _ _
  unfold OBB.intersectB
  rw [hsep, hsep, hsep, hsep]
  congr 1
  cases sepOn b a a.ax a.ay <;> cases sepOn b a (-a.ay) a.ax <;>
    cases sepOn b a b.ax b.ay <;> cases sepOn b a (-b.ay) b.ax <;> rfl

theorem dist2_comm (a b : Vec2) : dist2 a b = dist2 b a := by
  unfold dist2
  ring

theorem processEntry_cases (st : OccState) (i : ℕ) :
    (parentOccluded st (st.labelAt i) = true ∧
      processEntry st i = setLabel st i { st.labelAt i with occluded := true }) ∨
    (parentOccluded st (st.labelAt i) = false ∧
      processEntry st i = occludedOutcome st i (st.labelAt i)) ∨
    (∃ a, findAnchorPlacement (st.labelAt i) st.inserted = Option.some a ∧
      (st.labelAt i).occluded = false ∧
      (decide (0 < (st.labelAt i).repeatDistance) &&
        withinRepeatB st.placedRepeats (st.labelAt i)) = false ∧
      processEntry st i = placedOutcome st i (st.labelAt i) a) := by
  unfold processEntry
  split_ifs with h1 h2
  · exact Or.inl ⟨h1, rfl⟩
  · exact Or.inr (Or.inl ⟨Bool.eq_false_iff.mpr h1, rfl⟩)
  · cases hfa : findAnchorPlacement (st.labelAt i) st.inserted with
    | none => exact Or.inr (Or.inl ⟨Bool.eq_false_iff.mpr h1, rfl⟩)
    | some a =>
      simp only [Bool.or_eq_true] at h2
      refine Or.inr (Or.inr ⟨a, rfl, ?_, ?_, rfl⟩)
      · exact Bool.eq_false_iff.mpr (fun hh => h2 (Or.inl hh))
      · exact Bool.eq_false_iff.mpr (fun hh => h2 (Or.inr hh))

theorem occl_true_ne_false {l : LLabel} (h2 : l.occluded = false) (h : l.occluded = true) :
    False := by
  rw [h] at h2
  exact Bool.noConfusion h2

theorem masterInv (ls : List LLabel)
    (hidx : ∀ l ∈ ls, l.anchorIndex < l.anchorCount)
    (hne : ∀ l ∈ ls, ∀ a, a < l.anchorCount → ∀ o ∈ l.obbsAt a,
      (OBB.getExtent o).isEmptyB = false) :
    ∀ k,
    (∀ i, i < ls.length →
      ((runPassUpTo ls k).labelAt i).anchorIndex < ((runPassUpTo ls k).labelAt i).anchorCount) ∧
    (∀ i, ∀ o ∈ ((runPassUpTo ls k).labelAt i).obbList, (OBB.getExtent o).isEmptyB = false) ∧
    (∀ i, ((runPassUpTo ls k).labelAt i).occluded = false →
      ∀ o ∈ ((runPassUpTo ls k).labelAt i).obbList, (i, o) ∈ (runPassUpTo ls k).inserted) ∧
    (∀ i, i < k → ((runPassUpTo ls k).labelAt i).occluded = false →
      0 < ((runPassUpTo ls k).labelAt i).repeatDistance →
      (i, ((runPassUpTo ls k).labelAt i).repeatGroup,
        ((runPassUpTo ls k).labelAt i).screenCenter) ∈ (runPassUpTo ls k).placedRepeats) ∧
    (∀ i j, i < k → j < k → i ≠ j →
      ((runPassUpTo ls k).labelAt i).occluded = false →
      ((runPassUpTo ls k).labelAt j).occluded = false →
      ∀ oi ∈ ((runPassUpTo ls k).labelAt i).obbList,
      ∀ oj ∈ ((runPassUpTo ls k).labelAt j).obbList,
        OBB.intersectB oi oj = false ∨
        ((runPassUpTo ls k).labelAt i).parent = Option.some j ∨
        ((runPassUpTo ls k).labelAt j).parent = Option.some i) ∧
    (∀ i j, i < j → j < k →
      ((runPassUpTo ls k).labelAt i).occluded = false →
      ((runPassUpTo ls k).labelAt j).occluded = false →
      0 < ((runPassUpTo ls k).labelAt i).repeatDistance →
      0 < ((runPassUpTo ls k).labelAt j).repeatDistance →
      ((runPassUpTo ls k).labelAt i).repeatGroup = ((runPassUpTo ls k).labelAt j).repeatGroup →
      ((runPassUpTo ls k).labelAt j).repeatDistance ^ 2 ≤
        dist2 (((runPassUpTo ls k).labelAt i).screenCenter)
          (((runPassUpTo ls k).labelAt j).screenCenter)) := by
  intro k
  induction k with
  | zero =>
    refine ⟨?_, ?_, ?_, ?_, ?_, ?_⟩
    · intro i hi
      show (ls.getD i defaultLabel).anchorIndex < (ls.getD i defaultLabel).anchorCount
      rw [List.getD_eq_getElem ls defaultLabel hi]
      exact hidx _ (List.getElem_mem hi)
    · intro i o ho
      rw [show ((runPassUpTo ls 0).labelAt i).obbList = [] from rfl] at ho
      exact absurd ho (List.not_mem_nil o)
    · intro i _ o ho
      rw [show ((runPassUpTo ls 0).labelAt i).obbList = [] from rfl] at ho
      exact absurd ho (List.not_mem_nil o)
    · intro i hi
      exact absurd hi (Nat.not_lt_zero i)
    · intro i j hi
      exact absurd hi (Nat.not_lt_zero i)
    · intro i j _ hj
      exact absurd hj (Nat.not_lt_zero j)
  | succ k ih =>
    obtain ⟨ih1, ih2, ih3, ih4, ih5, ih6⟩ := ih
    rw [runPassUpTo_succ]
    set S := runPassUpTo ls k with hS
    rcases processEntry_cases S k with ⟨hb1, hpe⟩ | ⟨hb1, hpe⟩ | ⟨a, hfa, hocc0, hguard, hpe⟩ <;>
      rw [hpe]
    · -- parent-occluded continue branch
      have hAt1 : ∀ m, (setLabel S k { S.labelAt k with occluded := true }).labelAt m =
          if m = k then { S.labelAt k with occluded := true } else S.labelAt m :=
        fun m => setLabel_labelAt S k m _
      refine ⟨?_, ?_, ?_, ?_, ?_, ?_⟩
      · intro i hi
        rw [hAt1 i]
        split_ifs with hik
        · subst hik
          exact ih1 i hi
        · exact ih1 i hi
      · intro i o ho
        rw [hAt1 i] at ho
        split_ifs at ho with hik
        · subst hik
          exact ih2 i o ho
        · exact ih2 i o ho
      · intro i hocc o ho
        rw [hAt1 i] at hocc ho
        split_ifs at hocc ho with hik
        exact ih3 i hocc o ho
      · intro i hik1 hocc hrd
        rcases eq_or_ne i k with hik | hik
        · rw [hAt1 i, if_pos hik] at hocc
          exact (occl_true_ne_false hocc rfl).elim
        · rw [hAt1 i, if_neg hik] at hocc hrd ⊢
          exact ih4 i (by omega) hocc hrd
      · intro i j hi hj hij hocci hoccj oi hoi oj hoj
        rcases eq_or_ne i k with hik | hik
        · rw [hAt1 i, if_pos hik] at hocci
          exact (occl_true_ne_false hocci rfl).elim
        rcases eq_or_ne j k with hjk | hjk
        · rw [hAt1 j, if_pos hjk] at hoccj
          exact (occl_true_ne_false hoccj rfl).elim
        rw [hAt1 i, if_neg hik] at hocci hoi
        rw [hAt1 j, if_neg hjk] at hoccj hoj
        rw [hAt1 i, if_neg hik, hAt1 j, if_neg hjk]
        exact ih5 i j (by omega) (by omega) hij hocci hoccj oi hoi oj hoj
      · intro i j hij hjk1 hocci hoccj hrdi hrdj hgrp
        rcases eq_or_ne i k with hik | hik
        · rw [hAt1 i, if_pos hik] at hocci
          exact (occl_true_ne_false hocci rfl).elim
        rcases eq_or_ne j k with hjk | hjk
        · rw [hAt1 j, if_pos hjk] at hoccj
          exact (occl_true_ne_false hoccj rfl).elim
        rw [hAt1 i, if_neg hik] at hocci hrdi
        rw [hAt1 j, if_neg hjk] at hoccj hrdj
        rw [hAt1 i, if_neg hik, hAt1 j, if_neg hjk] at hgrp ⊢
        exact ih6 i j hij (by omega) hocci hoccj hrdi hrdj hgrp
    · -- occluded outcome branch
      have hself := occludedOutcome_self S k (S.labelAt k)
      have hlne := fun (m : ℕ) (hm : m ≠ k) => occludedOutcome_labelAt_ne S k m (S.labelAt k) hm
      have hcore := fun (m : ℕ) => occludedOutcome_coreEq S k m (S.labelAt k) (coreEq_refl _)
      have hins : (occludedOutcome S k (S.labelAt k)).inserted = S.inserted :=
        occludedOutcome_inserted S k (S.labelAt k)
      have hrep : (occludedOutcome S k (S.labelAt k)).placedRepeats = S.placedRepeats :=
        occludedOutcome_repeats S k (S.labelAt k)
      have hcoreSk := runPassUpTo_coreEq ls k k
      have hobbsk : (S.labelAt k).obbsAt = (ls.getD k defaultLabel).obbsAt :=
        hcoreSk.2.2.2.2.2.2.1
      have hcountk : (S.labelAt k).anchorCount = (ls.getD k defaultLabel).anchorCount :=
        hcoreSk.2.2.2.2.2.1
      have hpre : ∀ m, m ≠ k →
          ((occludedOutcome S k (S.labelAt k)).labelAt m).occluded = false →
          (S.labelAt m).occluded = false := by
        intro m hm hocc
        rcases (hlne m hm).2.2 with heq | htru
        · rw [heq] at hocc
          exact hocc
        · rw [htru] at hocc
          exact Bool.noConfusion hocc
      refine ⟨?_, ?_, ?_, ?_, ?_, ?_⟩
      · intro i hi
        rcases eq_or_ne i k with hik | hik
        · subst hik
          rw [hself.2.2, (hcore i).2.2.2.2.2.1]
          exact ih1 i hi
        · rw [(hlne i hik).2.1, (hcore i).2.2.2.2.2.1]
          exact ih1 i hi
      · intro i o ho
        rcases eq_or_ne i k with hik | hik
        · subst hik
          rw [hself.2.1] at ho
          by_cases hk : i < ls.length
          · rw [List.getD_eq_getElem ls defaultLabel hk] at hobbsk hcountk
            rw [hobbsk] at ho
            exact hne ls[i] (List.getElem_mem hk) _
              (by rw [← hcountk]; exact ih1 i hk) o ho
          · rw [List.getD_eq_default ls defaultLabel (Nat.le_of_not_lt hk)] at hobbsk
            rw [hobbsk] at ho
            exact absurd ho (List.not_mem_nil o)
        · rw [(hlne i hik).1] at ho
          exact ih2 i o ho
      · intro i hocc o ho
        rcases eq_or_ne i k with hik | hik
        · subst hik
          exact (occl_true_ne_false hocc hself.1).elim
        · rw [(hlne i hik).1] at ho
          rw [hins]
          exact ih3 i (hpre i hik hocc) o ho
      · intro i hik1 hocc hrd
        rcases eq_or_ne i k with hik | hik
        · subst hik
          exact (occl_true_ne_false hocc hself.1).elim
        · rw [(hcore i).2.2.1] at hrd
          rw [hrep, (hcore i).2.2.2.1, (hcore i).2.2.2.2.1]
          exact ih4 i (by omega) (hpre i hik hocc) hrd
      · intro i j hi hj hij hocci hoccj oi hoi oj hoj
        rcases eq_or_ne i k with hik | hik
        · subst hik
          exact (occl_true_ne_false hocci hself.1).elim
        rcases eq_or_ne j k with hjk | hjk
        · subst hjk
          exact (occl_true_ne_false hoccj hself.1).elim
        rw [(hlne i hik).1] at hoi
        rw [(hlne j hjk).1] at hoj
        rw [(hcore i).1, (hcore j).1]
        exact ih5 i j (by omega) (by omega) hij (hpre i hik hocci) (hpre j hjk hoccj)
          oi hoi oj hoj
      · intro i j hij hjk1 hocci hoccj hrdi hrdj hgrp
        rcases eq_or_ne i k with hik | hik
        · subst hik
          exact (occl_true_ne_false hocci hself.1).elim
        rcases eq_or_ne j k with hjk | hjk
        · subst hjk
          exact (occl_true_ne_false hoccj hself.1).elim
        rw [(hcore i).2.2.1] at hrdi
        rw [(hcore j).2.2.1] at hrdj
        rw [(hcore i).2.2.2.1, (hcore j).2.2.2.1] at hgrp
        rw [(hcore j).2.2.1, (hcore i).2.2.2.2.1, (hcore j).2.2.2.2.1]
        exact ih6 i j hij (by omega) (hpre i hik hocci) (hpre j hjk hoccj) hrdi hrdj hgrp
    · -- placed branch
      have hAt3 : ∀ m, (placedOutcome S k (S.labelAt k) a).labelAt m =
          if m = k then
            { S.labelAt k with
              occluded := false
              anchorIndex := a
              obbList := (S.labelAt k).obbsAt a }
          else S.labelAt m :=
        fun m => placedOutcome_labelAt S k m _ a
      have hspec := findAnchorPlacement_spec hfa
      have hclean := obbsClean_spec hspec.1
      have hcoreSk := runPassUpTo_coreEq ls k k
      have hobbsk : (S.labelAt k).obbsAt = (ls.getD k defaultLabel).obbsAt :=
        hcoreSk.2.2.2.2.2.2.1
      have hcountk : (S.labelAt k).anchorCount = (ls.getD k defaultLabel).anchorCount :=
        hcoreSk.2.2.2.2.2.1
      have hk : k < ls.length := by
        by_contra hk
        rw [List.getD_eq_default ls defaultLabel (Nat.le_of_not_lt hk)] at hcountk
        have h2 := hspec.2
        rw [hcountk] at h2
        exact absurd h2 (Nat.not_lt_zero a)
      rw [List.getD_eq_getElem ls defaultLabel hk] at hobbsk hcountk
      have hnonempty : ∀ o ∈ (S.labelAt k).obbsAt a, (OBB.getExtent o).isEmptyB = false := by
        intro o ho
        rw [hobbsk] at ho
        exact hne ls[k] (List.getElem_mem hk) a (by rw [← hcountk]; exact hspec.2) o ho
      have hmem_ins : ∀ o ∈ (S.labelAt k).obbsAt a,
          (k, o) ∈ (placedOutcome S k (S.labelAt k) a).inserted := by
        intro o ho
        refine List.mem_append_right _ ?_
        exact List.mem_map_of_mem _ (List.mem_filter.mpr ⟨ho, by rw [hnonempty o ho]; rfl⟩)
      refine ⟨?_, ?_, ?_, ?_, ?_, ?_⟩
      · intro i hi
        rw [hAt3 i]
        split_ifs with hik
        · exact hspec.2
        · exact ih1 i hi
      · intro i o ho
        rw [hAt3 i] at ho
        split_ifs at ho with hik
        · exact hnonempty o ho
        · exact ih2 i o ho
      · intro i hocc o ho
        rw [hAt3 i] at hocc ho
        split_ifs at hocc ho with hik
        · subst hik
          exact hmem_ins o ho
        · exact List.mem_append_left _ (ih3 i hocc o ho)
      · intro i hik1 hocc hrd
        rcases eq_or_ne i k with hik | hik
        · subst hik
          rw [hAt3 i, if_pos rfl] at hocc hrd
          rw [hAt3 i, if_pos rfl]
          have hrd2 : 0 < (S.labelAt i).repeatDistance := hrd
          rw [placedOutcome_repeats, if_pos hrd2]
          exact List.mem_append_right _ (List.mem_singleton.mpr rfl)
        · rw [hAt3 i, if_neg hik] at hocc hrd ⊢
          rw [placedOutcome_repeats]
          split_ifs with hrdk
          · exact List.mem_append_left _ (ih4 i (by omega) hocc hrd)
          · exact ih4 i (by omega) hocc hrd
      · intro i j hi hj hij hocci hoccj oi hoi oj hoj
        rcases eq_or_ne i k with hik | hik
        · rcases eq_or_ne j k with hjk | hjk
          · exact absurd (hik.trans hjk.symm) hij
          · rw [hAt3 i, if_pos hik] at hoi
            rw [hAt3 j, if_neg hjk] at hoj hoccj
            have hins_j : (j, oj) ∈ S.inserted := ih3 j hoccj oj hoj
            have hcl := hclean oi hoi (j, oj) hins_j
            rw [hAt3 i, if_pos hik, hAt3 j, if_neg hjk]
            rcases hcl with hcl | hcl
            · exact Or.inl hcl
            · exact Or.inr (Or.inl hcl)
        · rcases eq_or_ne j k with hjk | hjk
          · rw [hAt3 j, if_pos hjk] at hoj
            rw [hAt3 i, if_neg hik] at hoi hocci
            have hins_i : (i, oi) ∈ S.inserted := ih3 i hocci oi hoi
            have hcl := hclean oj hoj (i, oi) hins_i
            rw [hAt3 j, if_pos hjk, hAt3 i, if_neg hik]
            rcases hcl with hcl | hcl
            · exact Or.inl (by rw [intersectB_comm]; exact hcl)
            · exact Or.inr (Or.inr hcl)
          · rw [hAt3 i, if_neg hik] at hoi hocci
            rw [hAt3 j, if_neg hjk] at hoj hoccj
            rw [hAt3 i, if_neg hik, hAt3 j, if_neg hjk]
            exact ih5 i j (by omega) (by omega) hij hocci hoccj oi hoi oj hoj
      · intro i j hij hjk1 hocci hoccj hrdi hrdj hgrp
        rcases eq_or_ne j k with hjk | hjk
        · subst hjk
          have hik : i ≠ j := by omega
          rw [hAt3 i, if_neg hik] at hocci hrdi
          rw [hAt3 j, if_pos rfl] at hrdj
          rw [hAt3 i, if_neg hik, hAt3 j, if_pos rfl] at hgrp ⊢
          have hrdj2 : 0 < (S.labelAt j).repeatDistance := hrdj
          have hwithin : withinRepeatB S.placedRepeats (S.labelAt j) = false := by
            cases hw : withinRepeatB S.placedRepeats (S.labelAt j)
            · rfl
            · exact absurd hguard (by simp [hrdj2, hw])
          have hmem := ih4 i (by omega) hocci hrdi
          have hgrp2 : (S.labelAt i).repeatGroup = (S.labelAt j).repeatGroup := hgrp
          have hnot := withinRepeatB_false_spec hwithin _ hmem hgrp2
          have hle := not_lt.mp hnot
          rw [dist2_comm] at hle
          exact hle
        · have hik : i ≠ k := by omega
          rw [hAt3 i, if_neg hik] at hocci hrdi
          rw [hAt3 j, if_neg hjk] at hoccj hrdj
          rw [hAt3 i, if_neg hik, hAt3 j, if_neg hjk] at hgrp ⊢
          exact ih6 i j hij (by omega) hocci hoccj hrdi hrdj hgrp

theorem repeatInv (ls : List LLabel) :
    ∀ k,
    (∀ i, i < k → ((runPassUpTo ls k).labelAt i).occluded = false →
      0 < ((runPassUpTo ls k).labelAt i).repeatDistance →
      (i, ((runPassUpTo ls k).labelAt i).repeatGroup,
        ((runPassUpTo ls k).labelAt i).screenCenter) ∈ (runPassUpTo ls k).placedRepeats) ∧
    (∀ i j, i < j → j < k →
      ((runPassUpTo ls k).labelAt i).occluded = false →
      ((runPassUpTo ls k).labelAt j).occluded = false →
      0 < ((runPassUpTo ls k).labelAt i).repeatDistance →
      0 < ((runPassUpTo ls k).labelAt j).repeatDistance →
      ((runPassUpTo ls k).labelAt i).repeatGroup = ((runPassUpTo ls k).labelAt j).repeatGroup →
      ((runPassUpTo ls k).labelAt j).repeatDistance ^ 2 ≤
        dist2 (((runPassUpTo ls k).labelAt i).screenCenter)
          (((runPassUpTo ls k).labelAt j).screenCenter)) := by
  intro k
  induction k with
  | zero =>
    refine ⟨?_, ?_⟩
    · intro i hi
      exact absurd hi (Nat.not_lt_zero i)
    · intro i j _ hj
      exact absurd hj (Nat.not_lt_zero j)
  | succ k ih =>
    obtain ⟨ih4, ih6⟩ := ih
    rw [runPassUpTo_succ]
    set S := runPassUpTo ls k with hS
    rcases processEntry_cases S k with ⟨hb1, hpe⟩ | ⟨hb1, hpe⟩ | ⟨a, hfa, hocc0, hguard, hpe⟩ <;>
      rw [hpe]
    · have hAt1 : ∀ m, (setLabel S k { S.labelAt k with occluded := true }).labelAt m =
          if m = k then { S.labelAt k with occluded := true } else S.labelAt m :=
        fun m => setLabel_labelAt S k m _
      refine ⟨?_, ?_⟩
      · intro i hik1 hocc hrd
        rcases eq_or_ne i k with hik | hik
        · rw [hAt1 i, if_pos hik] at hocc
          exact (occl_true_ne_false hocc rfl).elim
        · rw [hAt1 i, if_neg hik] at hocc hrd ⊢
          exact ih4 i (by omega) hocc hrd
      · intro i j hij hjk1 hocci hoccj hrdi hrdj hgrp
        rcases eq_or_ne i k with hik | hik
        · rw [hAt1 i, if_pos hik] at hocci
          exact (occl_true_ne_false hocci rfl).elim
        rcases eq_or_ne j k with hjk | hjk
        · rw [hAt1 j, if_pos hjk] at hoccj
          exact (occl_true_ne_false hoccj rfl).elim
        rw [hAt1 i, if_neg hik] at hocci hrdi
        rw [hAt1 j, if_neg hjk] at hoccj hrdj
        rw [hAt1 i, if_neg hik, hAt1 j, if_neg hjk] at hgrp ⊢
        exact ih6 i j hij (by omega) hocci hoccj hrdi hrdj hgrp
    · have hself := occludedOutcome_self S k (S.labelAt k)
      have hlne := fun (m : ℕ) (hm : m ≠ k) => occludedOutcome_labelAt_ne S k m (S.labelAt k) hm
      have hcore := fun (m : ℕ) => occludedOutcome_coreEq S k m (S.labelAt k) (coreEq_refl _)
      have hrep : (occludedOutcome S k (S.labelAt k)).placedRepeats = S.placedRepeats :=
        occludedOutcome_repeats S k (S.labelAt k)
      have hpre : ∀ m, m ≠ k →
          ((occludedOutcome S k (S.labelAt k)).labelAt m).occluded = false →
          (S.labelAt m).occluded = false := by
        intro m hm hocc
        rcases (hlne m hm).2.2 with heq | htru
        · rw [heq] at hocc
          exact hocc
        · rw [htru] at hocc
          exact Bool.noConfusion hocc
      refine ⟨?_, ?_⟩
      · intro i hik1 hocc hrd
        rcases eq_or_ne i k with hik | hik
        · subst hik
          exact (occl_true_ne_false hocc hself.1).elim
        · rw [(hcore i).2.2.1] at hrd
          rw [hrep, (hcore i).2.2.2.1, (hcore i).2.2.2.2.1]
          exact ih4 i (by omega) (hpre i hik hocc) hrd
      · intro i j hij hjk1 hocci hoccj hrdi hrdj hgrp
        rcases eq_or_ne i k with hik | hik
        · subst hik
          exact (occl_true_ne_false hocci hself.1).elim
        rcases eq_or_ne j k with hjk | hjk
        · subst hjk
          exact (occl_true_ne_false hoccj hself.1).elim
        rw [(hcore i).2.2.1] at hrdi
        rw [(hcore j).2.2.1] at hrdj
        rw [(hcore i).2.2.2.1, (hcore j).2.2.2.1] at hgrp
        rw [(hcore j).2.2.1, (hcore i).2.2.2.2.1, (hcore j).2.2.2.2.1]
        exact ih6 i j hij (by omega) (hpre i hik hocci) (hpre j hjk hoccj) hrdi hrdj hgrp
    · have hAt3 : ∀ m, (placedOutcome S k (S.labelAt k) a).labelAt m =
          if m = k then
            { S.labelAt k with
              occluded := false
              anchorIndex := a
              obbList := (S.labelAt k).obbsAt a }
          else S.labelAt m :=
        fun m => placedOutcome_labelAt S k m _ a
      refine ⟨?_, ?_⟩
      · intro i hik1 hocc hrd
        rcases eq_or_ne i k with hik | hik
        · subst hik
          rw [hAt3 i, if_pos rfl] at hocc hrd
          rw [hAt3 i, if_pos rfl]
          have hrd2 : 0 < (S.labelAt i).repeatDistance := hrd
          rw [placedOutcome_repeats, if_pos hrd2]
          exact List.mem_append_right _ (List.mem_singleton.mpr rfl)
        · rw [hAt3 i, if_neg hik] at hocc hrd ⊢
          rw [placedOutcome_repeats]
          split_ifs with hrdk
          · exact List.mem_append_left _ (ih4 i (by omega) hocc hrd)
          · exact ih4 i (by omega) hocc hrd
      · intro i j hij hjk1 hocci hoccj hrdi hrdj hgrp
        rcases eq_or_ne j k with hjk | hjk
        · subst hjk
          have hik : i ≠ j := by omega
          rw [hAt3 i, if_neg hik] at hocci hrdi
          rw [hAt3 j, if_pos rfl] at hrdj
          rw [hAt3 i, if_neg hik, hAt3 j, if_pos rfl] at hgrp ⊢
          have hrdj2 : 0 < (S.labelAt j).repeatDistance := hrdj
          have hwithin : withinRepeatB S.placedRepeats (S.labelAt j) = false := by
            cases hw : withinRepeatB S.placedRepeats (S.labelAt j)
            · rfl
            · exact absurd hguard (by simp [hrdj2, hw])
          have hmem := ih4 i (by omega) hocci hrdi
          have hgrp2 : (S.labelAt i).repeatGroup = (S.labelAt j).repeatGroup := hgrp
          have hnot := withinRepeatB_false_spec hwithin _ hmem hgrp2
          have hle := not_lt.mp hnot
          rw [dist2_comm] at hle
          exact hle
        · have hik : i ≠ k := by omega
          rw [hAt3 i, if_neg hik] at hocci hrdi
          rw [hAt3 j, if_neg hjk] at hoccj hrdj
          rw [hAt3 i, if_neg hik, hAt3 j, if_neg hjk] at hgrp ⊢
          exact ih6 i j hij (by omega) hocci hoccj hrdi hrdj hgrp

theorem repeats_empty_of_rd_zero (ls : List LLabel)
    (h : ∀ l ∈ ls, l.repeatDistance = 0) :
    ∀ k, (runPassUpTo ls k).placedRepeats = [] := by
  intro k
  induction k with
  | zero => rfl
  | succ k ih =>
    rw [runPassUpTo_succ]
    rcases processEntry_cases (runPassUpTo ls k) k with ⟨hb1, hpe⟩ | ⟨hb1, hpe⟩ |
      ⟨a, hfa, hocc0, hguard, hpe⟩ <;> rw [hpe]
    · exact ih
    · rw [occludedOutcome_repeats]
      exact ih
    · rw [placedOutcome_repeats]
      have hrd : ((runPassUpTo ls k).labelAt k).repeatDistance = 0 := by
        have hc := runPassUpTo_coreEq ls k k
        rw [hc.2.2.1]
        by_cases hk : k < ls.length
        · rw [List.getD_eq_getElem ls defaultLabel hk]
          exact h ls[k] (List.getElem_mem hk)
        · rw [List.getD_eq_default ls defaultLabel (Nat.le_of_not_lt hk)]
          rfl
      rw [hrd, if_neg (lt_irrefl (0 : ℚ))]
      exact ih

/-- Claim C1: after the occlusion pass, for every two distinct placed
(non-occluded) label entries, no OBB of one intersects an OBB of the
other, except when one label is the parent of the other (in which case the
intersecting OBB belongs to that parent). Stated for entry lists whose
labels start at a valid anchor and whose OBBs have nonempty extents (the
broad phase skips insertion of an OBB with an empty extent). -/
theorem occlusion_pass_no_obb_overlap (ls : List LLabel)
    (hidx : ∀ l ∈ ls, l.anchorIndex < l.anchorCount)
    (hne : ∀ l ∈ ls, ∀ a, a < l.anchorCount → ∀ o ∈ l.obbsAt a,
      (OBB.getExtent o).isEmptyB = false)
    (i j : ℕ) (hi : i < ls.length) (hj : j < ls.length) (hij : i ≠ j)
    (hocci : ((runPass ls).labelAt i).occluded = false)
    (hoccj : ((runPass ls).labelAt j).occluded = false)
    (oi : OBB) (hoi : oi ∈ ((runPass ls).labelAt i).obbList)
    (oj : OBB) (hoj : oj ∈ ((runPass ls).labelAt j).obbList) :
    OBB.intersectB oi oj = false ∨
    ((runPass ls).labelAt i).parent = Option.some j ∨
    ((runPass ls).labelAt j).parent = Option.some i :=
  (masterInv ls hidx hne ls.length).2.2.2.2.1 i j hi hj hij hocci hoccj oi hoi oj hoj

theorem occlusion_pass_no_obb_overlap_witness :
    (∀ l ∈ wls, l.anchorIndex < l.anchorCount) ∧
    ((runPass wls).labelAt 0).occluded = false ∧
    ((runPass wls).labelAt 1).occluded = false ∧
    (OBB.intersectB (obbAtP ⟨0, 0⟩ 10 10) (obbAtP ⟨100, 100⟩ 10 10) = false ∨
      ((runPass wls).labelAt 0).parent = Option.some 1 ∨
      ((runPass wls).labelAt 1).parent = Option.some 0) :=
  ⟨by with_unfolding_all decide, by with_unfolding_all decide, by with_unfolding_all decide,
    occlusion_pass_no_obb_overlap wls (by with_unfolding_all decide) (by with_unfolding_all decide) 0 1 (by with_unfolding_all decide) (by with_unfolding_all decide)
      (by with_unfolding_all decide) (by with_unfolding_all decide) (by with_unfolding_all decide) (obbAtP ⟨0, 0⟩ 10 10) (by with_unfolding_all decide)
      (obbAtP ⟨100, 100⟩ 10 10) (by with_unfolding_all decide)⟩

/-- Claim C3: after the occlusion pass, every two distinct placed labels of
the same repeat group with the same positive repeatDistance have screen
centers at least repeatDistance apart (stated with squared distances, as
computed by the source); and a label whose repeat group already contains a
placed label within repeatDistance when it is processed is occluded. -/
theorem repeat_group_spacing (ls : List LLabel) :
    (∀ i j, i < ls.length → j < ls.length → i ≠ j →
      ((runPass ls).labelAt i).occluded = false →
      ((runPass ls).labelAt j).occluded = false →
      0 < ((runPass ls).labelAt i).repeatDistance →
      ((runPass ls).labelAt i).repeatDistance = ((runPass ls).labelAt j).repeatDistance →
      ((runPass ls).labelAt i).repeatGroup = ((runPass ls).labelAt j).repeatGroup →
      ((runPass ls).labelAt i).repeatDistance ^ 2 ≤
        dist2 (((runPass ls).labelAt i).screenCenter)
          (((runPass ls).labelAt j).screenCenter)) ∧
    (∀ i, i < ls.length →
      0 < ((runPassUpTo ls i).labelAt i).repeatDistance →
      withinRepeatB (runPassUpTo ls i).placedRepeats ((runPassUpTo ls i).labelAt i) = true →
      ((runPass ls).labelAt i).occluded = true) := by
  constructor
  · intro i j hi hj hij hocci hoccj hrdi hrdeq hgrp
    unfold runPass at hocci hoccj hrdi hrdeq hgrp ⊢
    have h6 := (repeatInv ls ls.length).2
    rcases Nat.lt_or_ge i j with hlt | hge
    · rw [hrdeq]
      exact h6 i j hlt hj hocci hoccj hrdi (hrdeq ▸ hrdi) hgrp
    · rw [dist2_comm]
      exact h6 j i (by omega) hi hoccj hocci (hrdeq ▸ hrdi) hrdi hgrp.symm
  · intro i hi hrd hwin
    have hstep : ((runPassUpTo ls (i + 1)).labelAt i).occluded = true := by
      rw [runPassUpTo_succ]
      rcases processEntry_cases (runPassUpTo ls i) i with ⟨hb1, hpe⟩ | ⟨hb1, hpe⟩ |
        ⟨a, hfa, hocc0, hguard, hpe⟩ <;> rw [hpe]
      · rw [setLabel_labelAt]
        simp
      · exact (occludedOutcome_self _ _ _).1
      · exfalso
        rw [hwin] at hguard
        simp [hrd] at hguard
    exact runPassUpTo_occl_persist ls (by omega) i hstep

theorem repeat_group_spacing_witness :
    (0 : ℚ) < ((runPass rls).labelAt 0).repeatDistance ∧
    withinRepeatB (runPassUpTo rls 1).placedRepeats ((runPassUpTo rls 1).labelAt 1) = true ∧
    ((runPass rls).labelAt 0).repeatDistance ^ 2 ≤
      dist2 (((runPass rls).labelAt 0).screenCenter) (((runPass rls).labelAt 2).screenCenter) ∧
    ((runPass rls).labelAt 1).occluded = true :=
  ⟨by with_unfolding_all decide, by with_unfolding_all decide,
    (repeat_group_spacing rls).1 0 2 (by with_unfolding_all decide) (by with_unfolding_all decide) (by with_unfolding_all decide) (by with_unfolding_all decide)
      (by with_unfolding_all decide) (by with_unfolding_all decide) (by with_unfolding_all decide) (by with_unfolding_all decide),
    (repeat_group_spacing rls).2 1 (by with_unfolding_all decide) (by with_unfolding_all decide) (by with_unfolding_all decide)⟩

/-- Claim C4 (amended): for every entry whose label is still occluded after
its anchor search (the parent was not occluded when it was processed and
no anchor gave a clean placement), if the label has a parent and required
is set, the parent is marked occluded; consequently, when the child or the
parent entered the frame in state none, that label emits no vertices. (The
claim's unconditional "neither emits vertices" fails: a previously visible
parent transitions to fading_out, which is a visible state, and still
emits vertices while fading; see the counterexample.) -/
theorem required_child_occludes_parent (ls : List LLabel) (i p : ℕ) (hi : i < ls.length)
    (hnp : parentOccluded (runPassUpTo ls i) ((runPassUpTo ls i).labelAt i) = false)
    (hfail : findAnchorPlacement ((runPassUpTo ls i).labelAt i) (runPassUpTo ls i).inserted
      = Option.none)
    (hpar : ((runPassUpTo ls i).labelAt i).parent = Option.some p)
    (hreq : ((runPassUpTo ls i).labelAt i).required = true) :
    ((runPass ls).labelAt p).occluded = true ∧
    ((runPass ls).labelAt i).occluded = true ∧
    (((runPass ls).labelAt i).lstate = LState.none →
      ∀ screen dt, (finalizeEntry screen dt ((runPass ls).labelAt i)).emitted = []) ∧
    (((runPass ls).labelAt p).lstate = LState.none →
      ∀ screen dt, (finalizeEntry screen dt ((runPass ls).labelAt p)).emitted = []) := by
  rcases processEntry_cases (runPassUpTo ls i) i with ⟨hb1, hpe⟩ | ⟨hb1, hpe⟩ |
    ⟨a, hfa, hocc0, hguard, hpe⟩
  · rw [hb1] at hnp
    exact Bool.noConfusion hnp
  · have hstep_i : ((runPassUpTo ls (i + 1)).labelAt i).occluded = true := by
      rw [runPassUpTo_succ, hpe]
      exact (occludedOutcome_self _ _ _).1
    have hstep_p : ((runPassUpTo ls (i + 1)).labelAt p).occluded = true := by
      rw [runPassUpTo_succ, hpe]
      exact occludedOutcome_parent_occl _ _ _ p hpar hreq
    have hfin_i : ((runPass ls).labelAt i).occluded = true :=
      runPassUpTo_occl_persist ls (by omega) i hstep_i
    have hfin_p : ((runPass ls).labelAt p).occluded = true :=
      runPassUpTo_occl_persist ls (by omega) p hstep_p
    refine ⟨hfin_p, hfin_i, ?_, ?_⟩
    · intro hst screen dt
      simp [finalizeEntry, hst, hfin_i, evalStateModel, visibleStateB]
    · intro hst screen dt
      simp [finalizeEntry, hst, hfin_p, evalStateModel, visibleStateB]
  · rw [hfa] at hfail
    exact Option.noConfusion hfail

theorem required_child_occludes_parent_witness :
    parentOccluded (runPassUpTo cexLs 2) ((runPassUpTo cexLs 2).labelAt 2) = false ∧
    findAnchorPlacement ((runPassUpTo cexLs 2).labelAt 2) (runPassUpTo cexLs 2).inserted
      = Option.none ∧
    ((runPass cexLs).labelAt 1).occluded = true ∧
    ((runPass cexLs).labelAt 2).occluded = true :=
  ⟨by with_unfolding_all decide, by with_unfolding_all decide,
    (required_child_occludes_parent cexLs 2 1 (by with_unfolding_all decide) (by with_unfolding_all decide) (by with_unfolding_all decide) (by with_unfolding_all decide)
      (by with_unfolding_all decide)).1,
    (required_child_occludes_parent cexLs 2 1 (by with_unfolding_all decide) (by with_unfolding_all decide) (by with_unfolding_all decide) (by with_unfolding_all decide)
      (by with_unfolding_all decide)).2.1⟩

/-- Claim C4 counterexample: in the concrete scenario cexLs, the required
child C (entry 2) fails placement against Q (entry 0) and its parent P
(entry 1, in state visible) is marked occluded; yet P still emits vertices
in that frame, because a visible occluded label transitions to fading_out,
which is a visible state. This refutes the claim's "consequently neither
the required child nor its parent emits vertices in that frame". -/
theorem required_propagation_parent_still_emits :
    ((runPass cexLs).labelAt 1).occluded = true ∧
    ((runPass cexLs).labelAt 1).lstate = LState.visible ∧
    ((finalizeEntry cexScreen 0 ((runPass cexLs).labelAt 1)).emitted).isEmpty = false := by
  refine ⟨by with_unfolding_all decide, by with_unfolding_all decide, by with_unfolding_all decide⟩

/-- Claim C9: the TextLabel constructor forces options.repeatDistance to 0;
consequently, in the occlusion pass over labels with repeatDistance 0, the
repeat-distance guard is always false (so withinRepeatDistance is never
invoked, the conjunction short-circuits) and no label is ever registered
in a repeat group. -/
theorem text_label_repeat_distance_zero :
    (∀ o : LabelOptionsM, (textLabelCtorOptions o).repeatDistance = 0) ∧
    (∀ ls : List LLabel, (∀ l ∈ ls, l.repeatDistance = 0) →
      (runPass ls).placedRepeats = [] ∧
      (∀ i, i < ls.length →
        (decide (0 < ((runPassUpTo ls i).labelAt i).repeatDistance) &&
          withinRepeatB (runPassUpTo ls i).placedRepeats ((runPassUpTo ls i).labelAt i))
          = false)) := by
  constructor
  · intro o
    rfl
  · intro ls h
    constructor
    · exact repeats_empty_of_rd_zero ls h ls.length
    · intro i hi
      have hrd : ((runPassUpTo ls i).labelAt i).repeatDistance = 0 := by
        have hc := runPassUpTo_coreEq ls i i
        rw [hc.2.2.1, List.getD_eq_getElem ls defaultLabel hi]
        exact h ls[i] (List.getElem_mem hi)
      rw [hrd]
      simp

theorem text_label_repeat_distance_zero_witness :
    (∀ l ∈ wRd0, l.repeatDistance = 0) ∧ (runPass wRd0).placedRepeats = [] :=
  ⟨by with_unfolding_all decide, (text_label_repeat_distance_zero.2 wRd0 (by with_unfolding_all decide)).1⟩

/-- Claim C2: the spec requires labelComparator to be a strict weak order on
label entries, including mixtures of line, curved and point labels. This
theorem evaluates the comparator at three concrete entries of the same
proxy flag, priority and tile zoom (two line labels of equal
worldLineLength2 with hashes 1 and 3, and a point label with hash 2) and
shows transitivity of the strict order fails: cmpL1 precedes cmpP and
cmpP precedes cmpL2, but cmpL1 does not precede cmpL2, because the
comparator returns unconditionally for two line labels and never reaches
the hash rule. Hence labelComparatorB is not a strict weak order, which
violates the precondition of std::stable_sort in Labels::sortLabels. -/
theorem label_comparator_not_transitive :
    labelComparatorB cmpL1 cmpP = true ∧ labelComparatorB cmpP cmpL2 = true ∧
    labelComparatorB cmpL1 cmpL2 = false := by
  refine ⟨?_, ?_, ?_⟩ <;> with_unfolding_all decide

/-- Claim C8: the zoom-transition skipping step of updateLabelSet runs
exactly when the int casts of the stored last zoom and the current zoom
differ: a change from zoom 14.9 to 15.0 triggers it, a change from 14.1 to
14.9 does not; and for nonnegative zooms the int cast equals the floor, so
the condition is exactly a change of integer part. -/
theorem zoom_skip_on_integer_change :
    (zoomSkipStep (149 / 10) 15).1 = true ∧
    (zoomSkipStep (141 / 10) (149 / 10)).1 = false ∧
    ∀ a b : ℚ, 0 ≤ a → 0 ≤ b → ((zoomSkipStep a b).1 = true ↔ ⌊a⌋ ≠ ⌊b⌋) := by
  refine ⟨by with_unfolding_all decide, by with_unfolding_all decide, ?_⟩
  intro a b ha hb
  have h1 : qtrunc a = ⌊a⌋ := by
    unfold qtrunc
    rw [if_neg (not_lt.mpr ha)]
  have h2 : qtrunc b = ⌊b⌋ := by
    unfold qtrunc
    rw [if_neg (not_lt.mpr hb)]
  unfold zoomSkipStep
  rw [h1, h2]
  split_ifs with h
  · simp [h]
  · simp [h]

theorem zoom_skip_on_integer_change_witness :
    (0 : ℚ) ≤ 1 ∧ ((zoomSkipStep 1 2).1 = true ↔ ⌊(1 : ℚ)⌋ ≠ ⌊(2 : ℚ)⌋) :=
  ⟨by norm_num, zoom_skip_on_integer_change.2.2 1 2 (by norm_num) (by norm_num)⟩

/-- Claim C6 counterexample: with dim (10, 6), buffer (2, 2) and
occludedLastFrame set, the emitted OBB width is 10, which is
dim.x - buffer.x + activation_distance_threshold and differs from the
claimed dim.x + activation_distance_threshold = 12; and with buffer 0 and
a dead label (collected under the draw_all debug flag) the width is 6,
which differs from the claimed dim.x - buffer.x = 10. -/
theorem text_label_obbs_size_counterexample :
    (textLabelObbsModel ⟨10, 6⟩ ⟨2, 2⟩ true LState.visible ⟨0, 0⟩ ⟨1, 0⟩ ⟨0, 0⟩).w = 10 ∧
    (10 : ℚ) ≠ 10 + activation_distance_threshold ∧
    (textLabelObbsModel ⟨10, 6⟩ ⟨0, 0⟩ false LState.dead ⟨0, 0⟩ ⟨1, 0⟩ ⟨0, 0⟩).w = 6 ∧
    (6 : ℚ) ≠ 10 - 0 := by
  refine ⟨?_, ?_, ?_, ?_⟩ <;> with_unfolding_all decide

/-- Claim C6 (amended): TextLabel::obbs emits exactly one OBB, centered at
position + m_anchor and rotated by the stored rotation (for a point label
the stored rotation is (1, 0)), whose size is dim - buffer, enlarged by
activation_distance_threshold when occludedLastFrame is true, and reduced
by 4 when the label state is dead. -/
theorem text_label_obbs_characterization (dim buf : Vec2) (occ : Bool) (s : LState)
    (tpos trot manchor : Vec2) (hrot : trot = ⟨1, 0⟩) :
    textLabelObbsList dim buf occ s tpos trot manchor =
      [⟨tpos.x + manchor.x, tpos.y + manchor.y, 1, 0,
        dim.x - buf.x + (if occ = true then activation_distance_threshold else 0) -
          (if s = LState.dead then 4 else 0),
        dim.y - buf.y + (if occ = true then activation_distance_threshold else 0) -
          (if s = LState.dead then 4 else 0)⟩] := by
  subst hrot
  unfold textLabelObbsList textLabelObbsModel
  rcases occ <;> by_cases hs : s = LState.dead <;> simp [hs]

theorem text_label_obbs_characterization_witness :
    ((⟨1, 0⟩ : Vec2) = ⟨1, 0⟩) ∧
    textLabelObbsList ⟨10, 6⟩ ⟨2, 2⟩ false LState.visible ⟨0, 0⟩ ⟨1, 0⟩ ⟨3, 4⟩ =
      [⟨0 + 3, 0 + 4, 1, 0, 8, 4⟩] := by
  refine ⟨rfl, ?_⟩
  have h := text_label_obbs_characterization ⟨10, 6⟩ ⟨2, 2⟩ false LState.visible ⟨0, 0⟩
    ⟨1, 0⟩ ⟨3, 4⟩ rfl
  rw [h]
  norm_num
  decide

/-- Claim C10: a TextLabel that is not in a visible state (its state is not
one of fading_in, visible, sleep, fading_out) returns from
addVerticesToMesh without pushing any quad: the style meshes are left
unchanged. -/
theorem add_vertices_requires_visible_state (s : LState) (alpha : ℚ)
    (sel fill stroke fscale : ℕ) (tpos trot manchor : Vec2) (dimY : ℚ) (screen : Vec2)
    (quads : List Glyph4) (hvis : visibleStateB s = false) :
    addVerticesToMeshModel s alpha sel fill stroke fscale tpos trot manchor dimY screen
      quads = [] := by
  unfold addVerticesToMeshModel
  rw [hvis]
  simp

theorem add_vertices_requires_visible_state_witness :
    visibleStateB LState.none = false ∧
    addVerticesToMeshModel LState.none 1 0 0 0 0 ⟨0, 0⟩ ⟨1, 0⟩ ⟨0, 0⟩ 0 ⟨800, 600⟩ [glyphQ]
      = [] :=
  ⟨rfl, add_vertices_requires_visible_state LState.none 1 0 0 0 0 ⟨0, 0⟩ ⟨1, 0⟩ ⟨0, 0⟩ 0
    ⟨800, 600⟩ [glyphQ] rfl⟩

/-- Claim C5: for a line label, updateScreenTransform returns false (here
Option.none) when either projected endpoint is clipped behind the camera, and
also when the projected segment length is below 0.7 times the label's width. -/
theorem line_label_rejected_when_clipped_or_short (proj : ℝ × ℝ → (ℝ × ℝ) × Bool)
    (l : TLabel) (hline : l.ltype = TType.line) :
    ((proj l.w0).2 = true ∨ (proj l.w1).2 = true →
      updateScreenTransformModel proj l = Option.none) ∧
    (rlen ((proj l.w1).1.1 - (proj l.w0).1.1, (proj l.w1).1.2 - (proj l.w0).1.2) <
        7 / 10 * l.dim.1 →
      updateScreenTransformModel proj l = Option.none) := by
  constructor
  · intro hc
    simp only [updateScreenTransformModel, hline]
    have hcc : ((proj l.w0).2 || (proj l.w1).2) = true := by
      rcases hc with hc | hc <;> simp [hc]
    rw [if_pos hcc]
  · intro hlen
    simp only [updateScreenTransformModel, hline]
    by_cases hcc : ((proj l.w0).2 || (proj l.w1).2) = true
    · rw [if_pos hcc]
    · rw [if_neg hcc, if_pos hlen]

theorem line_label_rejected_when_clipped_or_short_witness :
    rlen ((projId tl50.w1).1.1 - (projId tl50.w0).1.1,
        (projId tl50.w1).1.2 - (projId tl50.w0).1.2) < 7 / 10 * tl50.dim.1 ∧
    updateScreenTransformModel projId tl50 = Option.none := by
  have hlt : rlen ((projId tl50.w1).1.1 - (projId tl50.w0).1.1,
      (projId tl50.w1).1.2 - (projId tl50.w0).1.2) < 7 / 10 * tl50.dim.1 := by
    have h50 : rlen ((50 : ℝ) - 0, (0 : ℝ) - 0) = 50 := by
      unfold rlen
      rw [show (((50 : ℝ) - 0, (0 : ℝ) - 0).1 ^ 2 + ((50 : ℝ) - 0, (0 : ℝ) - 0).2 ^ 2)
        = 50 ^ 2 by norm_num]
      exact Real.sqrt_sq (by norm_num)
    simp only [projId, tl50]
    rw [h50]
    norm_num
  exact ⟨hlt, (line_label_rejected_when_clipped_or_short projId tl50 rfl).2 hlt⟩

/-- Claim C7 counterexample: for the line label along the 3-4-5 segment, the
stored rotation is not the unit left-to-right direction vector claimed by the
spec: the code negates its y component before storing it. -/
theorem line_rotation_not_unit_left_right :
    updateScreenTransformModel projId tl34 = Option.some tRes34 ∧
    specLeftToRightUnit (projId tl34.w0).1 (projId tl34.w1).1 = (3 / 5, 4 / 5) ∧
    tRes34.rot ≠ (3 / 5, 4 / 5) := by
  have h5 : rlen ((3 : ℝ) - 0, (4 : ℝ) - 0) = 5 := by
    unfold rlen
    rw [show (((3 : ℝ) - 0, (4 : ℝ) - 0).1 ^ 2 + ((3 : ℝ) - 0, (4 : ℝ) - 0).2 ^ 2)
      = 5 ^ 2 by norm_num]
    exact Real.sqrt_sq (by norm_num)
  refine ⟨?_, ?_, ?_⟩
  · simp only [updateScreenTransformModel, tl34, projId]
    rw [h5]
    norm_num [rotateByR, tRes34]
  · simp only [specLeftToRightUnit, tl34, projId]
    rw [h5]
    norm_num
  · simp only [tRes34]
    intro h
    have h2 := congrArg Prod.snd h
    norm_num at h2

/-- Claim C7 amended: for a line label with positive width that passes the
clip and length checks, the stored rotation is the y-negated unit
left-to-right direction vector of the projected segment, and its x component
is nonnegative. -/
theorem line_rotation_conjugate_of_unit (proj : ℝ × ℝ → (ℝ × ℝ) × Bool) (l : TLabel)
    (hline : l.ltype = TType.line) (hdim : 0 < l.dim.1) (t : PTrans)
    (ht : updateScreenTransformModel proj l = Option.some t) :
    t.rot = ((specLeftToRightUnit (proj l.w0).1 (proj l.w1).1).1,
             -(specLeftToRightUnit (proj l.w0).1 (proj l.w1).1).2) ∧
    0 ≤ t.rot.1 := by
  simp only [updateScreenTransformModel, hline] at ht
  by_cases hcc : ((proj l.w0).2 || (proj l.w1).2) = true
  · rw [if_pos hcc] at ht
    exact Option.noConfusion ht
  rw [if_neg hcc] at ht
  by_cases hlen : rlen ((proj l.w1).1.1 - (proj l.w0).1.1, (proj l.w1).1.2 - (proj l.w0).1.2) <
      7 / 10 * l.dim.1
  · rw [if_pos hlen] at ht
    exact Option.noConfusion ht
  rw [if_neg hlen] at ht
  have hLpos : 0 < rlen ((proj l.w1).1.1 - (proj l.w0).1.1, (proj l.w1).1.2 - (proj l.w0).1.2) := by
    have h7 : (0 : ℝ) < 7 / 10 * l.dim.1 := by positivity
    exact lt_of_lt_of_le h7 (not_lt.mp hlen)
  have hteq := Option.some.inj ht
  subst hteq
  constructor
  · by_cases hle : (proj l.w0).1.1 ≤ (proj l.w1).1.1
    · simp only [specLeftToRightUnit, if_pos hle]
    · simp only [specLeftToRightUnit, if_neg hle]
      simp only [Prod.mk.injEq]
      constructor <;> ring
  · by_cases hle : (proj l.w0).1.1 ≤ (proj l.w1).1.1
    · simp only [if_pos hle]
      exact div_nonneg (by linarith) (le_of_lt hLpos)
    · simp only [if_neg hle]
      push_neg at hle
      exact div_nonneg (by linarith) (le_of_lt hLpos)

theorem line_rotation_conjugate_of_unit_witness :
    tRes34.rot = ((specLeftToRightUnit (projId tl34.w0).1 (projId tl34.w1).1).1,
                  -(specLeftToRightUnit (projId tl34.w0).1 (projId tl34.w1).1).2) ∧
    0 ≤ tRes34.rot.1 := by
  have h5 : rlen ((3 : ℝ) - 0, (4 : ℝ) - 0) = 5 := by
    unfold rlen
    rw [show (((3 : ℝ) - 0, (4 : ℝ) - 0).1 ^ 2 + ((3 : ℝ) - 0, (4 : ℝ) - 0).2 ^ 2)
      = 5 ^ 2 by norm_num]
    exact Real.sqrt_sq (by norm_num)
  have ht : updateScreenTransformModel projId tl34 = Option.some tRes34 := by
    simp only [updateScreenTransformModel, tl34, projId]
    rw [h5]
    norm_num [rotateByR, tRes34]
  exact line_rotation_conjugate_of_unit projId tl34 rfl (by norm_num [tl34]) tRes34 ht

end Tangram
